import Mathlib

/-!
Verification of the JPW music-notation conversion scripts.

Shallow embedding of the parsing-and-resolution core of the repository
(files `jpw2xml.py`, `jpw2ly.py`, `midi2jpw.py`, `code(最新mid2jpw).py`).
Python floats are modelled with `ℚ` (every value handled by the scripts is
a small dyadic rational, on which float arithmetic is exact), Python
strings with `String` or `List Char`, and the character-scanning parser
loops with an explicit fuel parameter; sufficiency of the fuel (that is,
termination of the Python loop) is proved below.
-/

/-- Python `str.isspace` restricted to the ASCII whitespace characters
(the only ones the scripts can meet in practice). -/
def isPySpace (c : Char) : Bool :=
  decide (c ∈ ([' ', '\t', '\n', '\r', '\x0b', '\x0c'] : List Char))

/-- Python `str.isdigit` on one character (ASCII digits). -/
def isPyDigit (c : Char) : Bool :=
  '0' ≤ c ∧ c ≤ '9'

/-- The octave-raising mark, the ASCII apostrophe (codepoint 39). -/
def octUp : Char := Char.ofNat 39

/-- Python `line.find(c, start)` on a list of characters: index of the first
occurrence of `c` at position `start` or later, scanning the dropped suffix.
Returns `none` where Python returns `-1`. -/
def pyFindAux (c : Char) : List Char → ℕ → Option ℕ
  | [], _ => none
  | x :: xs, i => if x = c then some i else pyFindAux c xs (i + 1)

/-- Python `line.find(c, start)`. -/
def pyFind (cs : List Char) (c : Char) (start : ℕ) : Option ℕ :=
  pyFindAux c (cs.drop start) start

/-- Python `int(s)` on a nonempty all-digit string. -/
def strToNat (s : String) : ℕ :=
  s.foldl (fun a c => a * 10 + (c.toNat - '0'.toNat)) 0

/-- Python 3 `round` (round half to even) on a rational, as used through
`int(round(x))` in `duration_to_musicxml`.  A tie happens exactly when the
reduced denominator is 2. -/
def pyRound (q : ℚ) : ℤ :=
  if q.den = 2 then (if 2 ∣ ⌊q⌋ then ⌊q⌋ else ⌊q⌋ + 1) else round q

/-! ## Duration resolvers -/

/-- `jpw2xml.py`, `calculate_beats_from_jpw`:
`current_beats = 1.0 * (0.5 ** underscore_count) + float(hyphen_count)`;
`if has_dot: current_beats *= 1.5`.  `jpw2ly.py` recomputes the identical
expression inside `JpwFile.calculate_lily_duration_from_jpw`.  This is the
exact-rational value of the expression; the program evaluates it in double
precision (`calculate_beats_from_jpw_float` below), which agrees with this
value exactly whenever no rounding occurs — in particular on every input
the parsers and lookup tables of this development meet. -/
def calculate_beats_from_jpw (underscore_count hyphen_count : ℕ) (has_dot : Bool) : ℚ :=
  let current_beats : ℚ := 1 * (1/2) ^ underscore_count + hyphen_count
  if has_dot then current_beats * (3/2) else current_beats

/-- The dot factor named by the specification: one dot multiplies by 1.5 and
each further dot adds half of the remaining increment, that is
`dot_factor d = 2 - (1/2)^d`. -/
def specDotFactor (d : ℕ) : ℚ := 2 - (1/2) ^ d

/-- The dot loop of `duration_to_musicxml` in `code(最新mid2jpw).py`:
`for _ in range(num_dots): dot_increment /= 2.0; total_duration += dot_increment`. -/
def dotIncrementLoop (dot_increment total_duration : ℚ) : ℕ → ℚ
  | 0 => total_duration
  | n + 1 => dotIncrementLoop (dot_increment / 2) (total_duration + dot_increment / 2) n

/-- Divisions per quarter note in `code(最新mid2jpw).py` (`DIVISIONS = 4`,
`BASE_DURATION_DIVISIONS = DIVISIONS`). -/
def BASE_DURATION_DIVISIONS : ℚ := 4

/-- The exact (pre-rounding) total duration computed by
`duration_to_musicxml` in `code(最新mid2jpw).py`:
`current_duration = base_duration / pow(2, num_underscores)` followed by the
dot loop.  `None` arguments are replaced by `""` as in the source.  This is
the exact-rational value; the double-precision evaluation is
`duration_total_float` below, which agrees with it whenever no rounding
occurs. -/
def duration_to_musicxml_total (underscores dots : Option String) : ℚ :=
  let num_underscores := (underscores.getD "").length
  let num_dots := (dots.getD "").length
  let current_duration := BASE_DURATION_DIVISIONS / 2 ^ num_underscores
  dotIncrementLoop current_duration current_duration num_dots

/-- `DURATION_MAP` of `code(最新mid2jpw).py`: division count of the undotted
base duration to MusicXML type name. -/
def DURATION_MAP : List (ℤ × String) :=
  [(1, "16th"), (2, "eighth"), (3, "eighth"), (4, "quarter"), (6, "quarter"),
   (8, "half"), (12, "half"), (16, "whole")]

/-- `duration_to_musicxml` of `code(最新mid2jpw).py`: returns
`(total_duration, note_type, has_dot, num_dots)` with the total rounded to
integer divisions and the type looked up from the rounded undotted base. -/
def duration_to_musicxml (underscores dots : Option String) : ℤ × String × Bool × ℕ :=
  let num_underscores := (underscores.getD "").length
  let num_dots := (dots.getD "").length
  let current_duration := BASE_DURATION_DIVISIONS / 2 ^ num_underscores
  let total_duration := dotIncrementLoop current_duration current_duration num_dots
  let type_duration_lookup := pyRound current_duration
  let note_type := ((DURATION_MAP.lookup type_duration_lookup).getD "quarter")
  (pyRound total_duration, note_type, decide (0 < num_dots), num_dots)

/-- `dur_map` of `JpwFile.calculate_lily_duration_from_jpw` in `jpw2ly.py`,
in Python 3 dictionary insertion order. -/
def lyDurMap : List (ℚ × String) :=
  [(4, "1"), (3, "2."), (2, "2"), (3/2, "4."), (1, "4"),
   (3/4, "8."), (1/2, "8"), (3/8, "16."), (1/4, "16"),
   (3/16, "32."), (1/8, "32")]

/-- `JpwFile.calculate_lily_duration_from_jpw` of `jpw2ly.py`: computes the
beat value (same formula as `calculate_beats_from_jpw`), scans `dur_map`
for the first entry within tolerance `0.001`, and falls back to `"4"`. -/
def calculate_lily_duration_from_jpw (u_count h_count : ℕ) (dot : Bool) : String :=
  ((lyDurMap.find?
      (fun p => decide (|calculate_beats_from_jpw u_count h_count dot - p.1| < 1/1000))).map
    Prod.snd).getD "4"

/-- Re-resolution of a notated Lilypond duration string back to its beat
value, reading the source's `dur_map` table in reverse (the duration
strings of the table are pairwise distinct). -/
def lily_duration_to_beats (s : String) : Option ℚ :=
  (lyDurMap.find? (fun p => p.2 = s)).map Prod.fst

/-! ## Double-precision model of the duration expression

The scripts evaluate the duration formula on Python floats (IEEE-754
binary64).  The exact-rational definitions above give the value of the
expression when no rounding occurs; the definitions below model the actual
double-precision evaluation, so that the places where the two disagree
(round-off at 53 significant bits, underflow below `2^-1074`) can be
exhibited.  Overflow, infinities and NaN are not modelled: no value reached
by these expressions with a finite result comes near the overflow
threshold. -/

/-- Floor base-2 logarithm by structural recursion (`0` for inputs 0 and
1); the first argument is fuel bounding the recursion, and `natLog2` passes
the number itself, which always suffices. -/
def natLog2Aux : ℕ → ℕ → ℕ
  | 0, _ => 0
  | fuel + 1, n => if n ≤ 1 then 0 else natLog2Aux fuel (n / 2) + 1

/-- Floor base-2 logarithm. -/
def natLog2 (n : ℕ) : ℕ := natLog2Aux n n

/-- The rational `2^k` for an integer exponent `k`. -/
def pow2z (k : ℤ) : ℚ :=
  if 0 ≤ k then (2 : ℚ) ^ k.toNat else (1/2 : ℚ) ^ (-k).toNat

/-- Unit in the last place of the binary64 binade containing the positive
rational `q`: `2^(e-52)` for the exponent `e` with `2^e ≤ q < 2^(e+1)`
(computed from the bit lengths of numerator and denominator, with a
one-step correction), and the fixed subnormal ulp `2^-1074` below the
normal range. -/
def floatUlp (q : ℚ) : ℚ :=
  let e0 : ℤ := (natLog2 q.num.toNat : ℤ) - natLog2 q.den
  let e : ℤ := if q < pow2z e0 then e0 - 1 else e0
  if e < -1022 then pow2z (-1074) else pow2z (e - 52)

/-- IEEE-754 binary64 rounding of a rational, round to nearest with ties to
even: scale by the ulp of the binade, round half-to-even to an integer
(`pyRound` is exactly that rounding), and scale back.  A result that rounds
up into the next binade (`2^(e+1)`) is produced exactly, since it is a
multiple of the smaller ulp. -/
def flRound (q : ℚ) : ℚ :=
  if q = 0 then 0
  else if q < 0 then -((pyRound (-q / floatUlp (-q)) : ℚ) * floatUlp (-q))
  else (pyRound (q / floatUlp q) : ℚ) * floatUlp q

/-- Correctly rounded double-precision product. -/
def fmul (a b : ℚ) : ℚ := flRound (a * b)

/-- Correctly rounded double-precision sum. -/
def fadd (a b : ℚ) : ℚ := flRound (a + b)

/-- Correctly rounded double-precision quotient. -/
def fdiv (a b : ℚ) : ℚ := flRound (a / b)

/-- `calculate_beats_from_jpw` as Python actually computes it, in double
precision: `1.0 * (0.5 ** u) + float(h)`, then `*= 1.5` on a dot.
`0.5 ** u` is the correctly rounded power of two (exact down to `2^-1074`,
underflowing to `0` below), `float(h)` rounds the integer to a double, and
`*` and `+` round to nearest, ties to even. -/
def calculate_beats_from_jpw_float (underscore_count hyphen_count : ℕ)
    (has_dot : Bool) : ℚ :=
  let current_beats := fadd (fmul 1 (flRound ((1/2 : ℚ) ^ underscore_count)))
    (flRound (hyphen_count : ℚ))
  if has_dot then fmul current_beats (3/2) else current_beats

/-- The dot loop of `duration_to_musicxml` in double precision. -/
def dotIncrementLoopFloat (dot_increment total_duration : ℚ) : ℕ → ℚ
  | 0 => total_duration
  | n + 1 =>
    dotIncrementLoopFloat (fdiv dot_increment 2)
      (fadd total_duration (fdiv dot_increment 2)) n

/-- The pre-rounding total of `duration_to_musicxml` in double precision,
over the underscore and dot counts (the lengths of the captured strings):
`base_duration / pow(2, num_underscores)` followed by the dot loop.
`pow(2, u)` is exact for every exponent this model covers (`math.pow`
raises `OverflowError` from `u = 1024` on, outside the modelled range). -/
def duration_total_float (num_underscores num_dots : ℕ) : ℚ :=
  let current_duration := fdiv 4 (flRound ((2 : ℚ) ^ num_underscores))
  dotIncrementLoopFloat current_duration current_duration num_dots

/-! ## Pitch resolvers -/

/-- `NOTE_MAP_F_MAJOR` of `code(最新mid2jpw).py`: Jianpu digit (as the
one-character string captured by the regex) to step letter and base octave. -/
def NOTE_MAP_F_MAJOR (note_num : String) : Option (Char × ℕ) :=
  if note_num = "1" then some ('F', 4)
  else if note_num = "2" then some ('G', 4)
  else if note_num = "3" then some ('A', 4)
  else if note_num = "4" then some ('B', 4)
  else if note_num = "5" then some ('C', 5)
  else if note_num = "6" then some ('D', 5)
  else if note_num = "7" then some ('E', 5)
  else none

/-- `KEY_SIGNATURE_FIFTHS = -1` in `code(最新mid2jpw).py` (F major, one flat). -/
def KEY_SIGNATURE_FIFTHS : ℤ := -1

/-- `pitch_to_musicxml` of `code(最新mid2jpw).py`.  Returns
`(step, alter, octave, accidental_type)`; the all-`None` failure return of
the source is modelled as `none`. -/
def pitch_to_musicxml (note_num accidental_str octave_str : String) :
    Option (Char × ℤ × ℕ × Option String) :=
  match NOTE_MAP_F_MAJOR note_num with
  | none => none
  | some (step, base_octave) =>
    let octave := base_octave + octave_str.length
    let is_b_note := step = 'B'
    let key_has_b_flat := KEY_SIGNATURE_FIFTHS = -1
    if accidental_str = "#" then
      if is_b_note ∧ key_has_b_flat then some (step, 0, octave, some "natural")
      else some (step, 1, octave, some "sharp")
    else if accidental_str = "b" then some (step, -1, octave, some "flat")
    else if is_b_note ∧ key_has_b_flat then some (step, -1, octave, none)
    else some (step, 0, octave, none)

/-- `MIDI_NOTE_NAMES` of `jpw2xml.py`. -/
def MIDI_NOTE_NAMES : List String :=
  ["C", "C#", "D", "D#", "E", "F"] ++ ["F#", "G", "G#", "A", "A#", "B"]

/-- The natural-note semitone offsets `{'C':0,'D':2,'E':4,'F':5,'G':7,'A':9,'B':11}`
used by `get_key_info` and `jpw_pitch_to_musicxml` in `jpw2xml.py`. -/
def naturalNoteOffset (c : Char) : ℤ :=
  if c = 'C' then 0 else if c = 'D' then 2 else if c = 'E' then 4
  else if c = 'F' then 5 else if c = 'G' then 7 else if c = 'A' then 9
  else if c = 'B' then 11 else 0

/-- `fifths_map` of `get_key_info` in `jpw2xml.py`: pitch class of the key
root to MusicXML fifths. -/
def fifthsMap : List (ℤ × ℤ) :=
  [(0, 0), (7, 1), (2, 2), (9, 3), (4, 4), (11, 5), (6, 6),
   (5, -1), (10, -2), (3, -3), (8, -4), (1, -5)]

/-- The regex `([16])=([A-Ga-g])([#b])?` of `get_key_info` in `jpw2xml.py`,
anchored at the start of the key string: mode digit, root letter, optional
accidental. -/
def keyRegexMatch : List Char → Option (Char × Char × Option Char)
  | m :: '=' :: r :: rest =>
    if (m = '1' ∨ m = '6') ∧ (('A' ≤ r ∧ r ≤ 'G') ∨ ('a' ≤ r ∧ r ≤ 'g')) then
      some (m, r,
        match rest with
        | a :: _ => if a = '#' ∨ a = 'b' then some a else none
        | [] => none)
    else none
  | _ => none

/-- `get_key_info` of `jpw2xml.py`: parses a JPW key string such as `1=C` or
`6=Am` into `(key_root_midi, key_mode, key_fifths)`. -/
def get_key_info (key_str : String) : ℤ × ℕ × ℤ :=
  let base : ℤ × ℕ :=
    match keyRegexMatch key_str.toList with
    | some (mode_num, root_note_name, accidental) =>
      let key_mode := if mode_num = '1' then 0 else 1
      let base_offset := naturalNoteOffset root_note_name.toUpper
      let root := 60 + base_offset +
        (match accidental with
         | some a => if a = '#' then 1 else if a = 'b' then -1 else 0
         | none => 0)
      (root, key_mode)
    | none => (60, 0)
  let key_root_midi := base.1
  let key_mode := base.2
  let normalized_root := key_root_midi.emod 12
  let key_fifths := (fifthsMap.lookup normalized_root).getD 0
  let key_fifths :=
    if key_mode = 1 then (fifthsMap.lookup ((key_root_midi + 3).emod 12)).getD 0
    else key_fifths
  (key_root_midi, key_mode, key_fifths)

/-- `get_diatonic_pitch` of `jpw2xml.py`: diatonic MIDI number of a JPW
degree digit in the given key (major or natural-minor intervals). -/
def get_diatonic_pitch (jpw_num_str : Char) (key_root_midi : ℤ) (key_mode : ℕ) :
    Option ℤ :=
  let major_intervals : List ℤ := [0, 2, 4, 5, 7, 9, 11]
  let minor_intervals : List ℤ := [0, 2, 3, 5, 7, 8, 10]
  let scale_intervals := if key_mode = 0 then major_intervals else minor_intervals
  if isPyDigit jpw_num_str then
    let jpw_idx : ℕ := jpw_num_str.toNat - '0'.toNat - 1
    if jpw_num_str.toNat - '0'.toNat ≥ 1 ∧ jpw_idx < 7 then
      some (key_root_midi + scale_intervals.getD jpw_idx 0)
    else none
  else none

/-- `jpw_pitch_to_musicxml` of `jpw2xml.py`: JPW pitch info to MusicXML
`(step, alter, octave)` (the latter two as decimal strings, as in the
source).  `jpw_num_str` is the one-character degree string. -/
def jpw_pitch_to_musicxml (jpw_num_str : Char) (jpw_oct_mod : ℤ) (jpw_pfx : String)
    (key_root_midi : ℤ) (key_mode : ℕ) : Option (Char × String × String) :=
  if jpw_num_str = '0' then none
  else
    match get_diatonic_pitch jpw_num_str key_root_midi key_mode with
    | none => none
    | some diatonic_midi =>
      let actual_midi := diatonic_midi +
        (if jpw_pfx = "#" then 1 else if jpw_pfx = "b" then -1 else 0)
      let base_diatonic_octave := diatonic_midi.ediv 12
      let final_midi_octave := base_diatonic_octave + jpw_oct_mod
      let note_in_octave := actual_midi.emod 12
      let final_midi_note := final_midi_octave * 12 + note_in_octave
      let musicxml_octave := toString (final_midi_note.ediv 12)
      let note_index := (final_midi_note.emod 12).toNat
      let musicxml_step := ((MIDI_NOTE_NAMES.getD note_index "C").toList.headD 'C')
      let natural_midi := final_midi_octave * 12 + naturalNoteOffset musicxml_step
      some (musicxml_step, toString (final_midi_note - natural_midi), musicxml_octave)

/-! ## The jpw2xml voice parser (`JpwToMusicXml.parse_jpw_voice_section`) -/

/-- The accumulator dictionary `current_note_attrs` of
`parse_jpw_voice_section` in `jpw2xml.py`.  The Python `prefix` key is named
`pfx` here. -/
structure XmlAttrs where
  jpw_num : Option Char
  oct_mod : ℤ
  pfx : String
  u_count : ℕ
  h_count : ℕ
  dot : Bool
  slur_start : Bool
  slur_end : Bool
  deriving DecidableEq, Repr

/-- The reset value of `current_note_attrs`. -/
def initXmlAttrs : XmlAttrs :=
  ⟨none, 0, "", 0, 0, false, false, false⟩

/-- One entry of `self.voice_events` in `jpw2xml.py`: a note (with its JPW
pitch data, slur flags and beat value), a rest, or a barline. -/
inductive XmlEvent where
  | note (jpw_num : Char) (oct_mod : ℤ) (pfx : String)
      (slur_start slur_end : Bool) (beats : ℚ)
  | rest (beats : ℚ)
  | barline (style : String)
  deriving DecidableEq, Repr

/-- The mutable state of the `parse_jpw_voice_section` loop. -/
structure XmlState where
  attrs : XmlAttrs
  is_inside_slur : Bool
  events : List XmlEvent
  deriving DecidableEq, Repr

/-- Initial parser state of `parse_jpw_voice_section`. -/
def initXmlState : XmlState :=
  ⟨initXmlAttrs, false, []⟩

/-- `finalize_and_add_event` of `parse_jpw_voice_section`: if a note or rest
is pending, computes its beats, appends the event and resets the
accumulators. -/
def finalize_and_add_event (st : XmlState) : XmlState :=
  match st.attrs.jpw_num with
  | none => st
  | some n =>
    let beats := calculate_beats_from_jpw st.attrs.u_count st.attrs.h_count st.attrs.dot
    let ev : XmlEvent :=
      if n = '0' then XmlEvent.rest beats
      else XmlEvent.note n st.attrs.oct_mod st.attrs.pfx
        st.attrs.slur_start st.attrs.slur_end beats
    { st with attrs := initXmlAttrs, events := st.events ++ [ev] }

/-- `self.voice_events[-1]['slur_end'] = True` guarded by
`voice_events and voice_events[-1]['type'] == 'note'`: set the slur-end flag
on the last event when it is a note, otherwise leave the list unchanged. -/
def xmlSetLastSlurEnd : List XmlEvent → List XmlEvent
  | [] => []
  | [XmlEvent.note n o p ss _ b] => [XmlEvent.note n o p ss true b]
  | [e] => [e]
  | e :: es => e :: xmlSetLastSlurEnd es

/-- The regex `\|\|?\[(\d+)\.?.*` of the alternative-bracket barlines,
anchored at the start of the given suffix. -/
def altRegexMatch : List Char → Bool
  | '|' :: '|' :: '[' :: d :: _ => isPyDigit d
  | '|' :: '[' :: d :: _ => isPyDigit d
  | _ => false

/-- `JpwToMusicXml.parse_jpw_multichar_bar` of `jpw2xml.py`: lexes a
multi-character barline token starting at `index`, returning the token and
how many extra characters were consumed. -/
def parse_jpw_multichar_bar (cs : List Char) (index : ℕ) (start_char : Char) :
    String × ℕ :=
  if start_char = '|' then
    if index + 1 < cs.length then
      let c1 := cs.getD (index + 1) ' '
      if c1 = ']' then ("|]", 1)
      else if c1 = '|' then ("||", 1)
      else if c1 = ':' then ("|:", 1)
      else if c1 = '[' then
        if altRegexMatch (cs.drop index) then
          let tok := String.mk (cs.drop index)
          (tok, tok.length - 1)
        else (String.mk [start_char], 0)
      else (String.mk [start_char], 0)
    else (String.mk [start_char], 0)
  else if start_char = ':' then
    if index + 1 < cs.length ∧ cs.getD (index + 1) ' ' = '|' then
      if index + 2 < cs.length ∧ cs.getD (index + 2) ' ' = ':' then (":|:", 2)
      else (":|", 1)
    else (String.mk [start_char], 0)
  else if start_char = '[' then
    if index + 2 < cs.length ∧ cs.getD (index + 1) ' ' = '|' ∧ cs.getD (index + 2) ' ' = ']'
    then ("[|]", 2)
    else (String.mk [start_char], 0)
  else (String.mk [start_char], 0)

/-- The branch of the `parse_jpw_voice_section` loop taken when a note or
rest is pending (`current_note_attrs['jpw_num'] is not None`): octave,
duration and accidental modifiers, slur marks, decorations, barlines, and
the unknown-character pushback (`i -= 1` followed by the loop's `i += 1`,
modelled as returning the same index with the pending note finalized). -/
def xmlStepPending (cs : List Char) (i : ℕ) (st : XmlState) (char : Char) :
    Option (ℕ × XmlState) :=
  if char = octUp then
    some (i + 1, { st with attrs := { st.attrs with oct_mod := st.attrs.oct_mod + 1 } })
  else if char = ',' then
    some (i + 1, { st with attrs := { st.attrs with oct_mod := st.attrs.oct_mod - 1 } })
  else if char = '_' then
    some (i + 1, { st with attrs := { st.attrs with u_count := st.attrs.u_count + 1 } })
  else if char = '-' then
    some (i + 1, { st with attrs := { st.attrs with h_count := st.attrs.h_count + 1 } })
  else if char = '.' then
    some (i + 1, { st with attrs := { st.attrs with dot := true } })
  else if char = '#' then
    some (i + 1, { st with attrs := { st.attrs with pfx := "#" } })
  else if char = 'b' then
    some (i + 1, { st with attrs := { st.attrs with pfx := "b" } })
  else if char = '(' then
    some (i + 1, { finalize_and_add_event st with is_inside_slur := true })
  else if char = ')' then
    some (i + 1, finalize_and_add_event
      { st with attrs := { st.attrs with slur_end := true } })
  else if char = '{' then
    match pyFind cs '}' i with
    | some j => some (j + 1, st)
    | none => some (i + 1, st)
  else if char ∈ ['|', ':', '[', ']'] then
    let st := finalize_and_add_event st
    let tc := parse_jpw_multichar_bar cs i char
    some (i + tc.2 + 1, { st with events := st.events ++ [XmlEvent.barline tc.1] })
  else
    some (i, finalize_and_add_event st)

/-- The branch of the `parse_jpw_voice_section` loop taken when no note is
pending: slur open and close, barlines, decorations, and silent skipping of
any other character. -/
def xmlStepNoPending (cs : List Char) (i : ℕ) (st : XmlState) (char : Char) :
    Option (ℕ × XmlState) :=
  if char = '(' then
    some (i + 1, { st with is_inside_slur := true })
  else if char = ')' then
    some (i + 1, { st with events := xmlSetLastSlurEnd st.events, is_inside_slur := false })
  else if char ∈ ['|', ':', '[', ']'] then
    let tc := parse_jpw_multichar_bar cs i char
    some (i + tc.2 + 1, { st with events := st.events ++ [XmlEvent.barline tc.1] })
  else if char = '{' then
    match pyFind cs '}' i with
    | some j => some (j + 1, st)
    | none => some (i + 1, st)
  else
    some (i + 1, st)

/-- One iteration of the `while i < line_len` loop of
`parse_jpw_voice_section`, given `i < cs.length`.  Returns `none` exactly on
the `//` end-of-line-comment `break`. -/
def xmlStep (cs : List Char) (i : ℕ) (st : XmlState) : Option (ℕ × XmlState) :=
  let char := cs.getD i ' '
  if char = '/' ∧ i + 1 < cs.length ∧ cs.getD (i + 1) ' ' = '/' then
    none
  else if char = '$' ∧ i + 1 < cs.length ∧ cs.getD (i + 1) ' ' = '(' then
    match pyFind cs ')' i with
    | some j => some (j + 1, st)
    | none => some (cs.length, st)
  else if isPySpace char then
    some (i + 1, st)
  else if isPyDigit char then
    let st := finalize_and_add_event st
    let st := { st with attrs := { st.attrs with jpw_num := some char } }
    if st.is_inside_slur then
      some (i + 1, { st with attrs := { st.attrs with slur_start := true },
                             is_inside_slur := false })
    else some (i + 1, st)
  else if st.attrs.jpw_num.isSome then
    xmlStepPending cs i st char
  else
    xmlStepNoPending cs i st char

/-- The `while i < line_len` loop of `parse_jpw_voice_section`, with an
explicit fuel parameter; `none` means the fuel ran out (shown below never to
happen with fuel `2 * cs.length + 2`). -/
def xmlLoop (cs : List Char) : ℕ → ℕ → XmlState → Option XmlState
  | 0, _, _ => none
  | fuel + 1, i, st =>
    if i < cs.length then
      match xmlStep cs i st with
      | none => some st
      | some (i', st') => xmlLoop cs fuel i' st'
    else some st

/-- Processing of one `.Voice` line by `parse_jpw_voice_section`: run the
character loop, then the end-of-line finalize and slur reset. -/
def xmlParseLine (st : XmlState) (line : String) : Option XmlState :=
  (xmlLoop line.toList (2 * line.toList.length + 2) 0 st).map
    (fun st' => { finalize_and_add_event st' with is_inside_slur := false })

/-- `JpwToMusicXml.parse_jpw_voice_section` of `jpw2xml.py`: parse the voice
lines into the event list.  `none` would mean a line's loop ran out of fuel,
which the termination theorem below excludes. -/
def parse_jpw_voice_section (voice_lines : List String) : Option (List XmlEvent) :=
  (voice_lines.foldlM xmlParseLine initXmlState).map XmlState.events

/-! ## The jpw2ly voice parser (`JpwFile.parse_voice_char_by_char`) -/

/-- The `Note` class of `jpw2ly.py` as built by the voice parser (the
`special` field, never set by the parser, is omitted). -/
structure LyNote where
  base_note : Char
  octave : ℤ
  lily_duration : String
  is_rest : Bool
  slur_start : Bool
  slur_end : Bool
  accent : Bool
  prall : Bool
  deriving DecidableEq, Repr

/-- One entry of `JpwFile.notes`: either a `Note` object or a raw
barline/command string appended by `parse_bars`. -/
inductive LyItem where
  | note (n : LyNote)
  | bar (s : String)
  deriving DecidableEq, Repr

/-- The mutable state of the `parse_voice_char_by_char` loop, together with
the `JpwFile` fields it touches (`is_inside_slur`, `alternative_opened`,
`alternative_closing_needed`, `notes`). -/
structure LyState where
  current_note : Option LyNote
  o_mod : ℤ
  u_count : ℕ
  h_count : ℕ
  dot : Bool
  in_special : Bool
  special_content : String
  in_dollar : Bool
  is_inside_slur : Bool
  alternative_opened : Bool
  alternative_closing_needed : ℕ
  notes : List LyItem
  deriving DecidableEq, Repr

/-- Initial state of `parse_voice_char_by_char` (fresh `JpwFile`). -/
def initLyState : LyState :=
  ⟨none, 0, 0, 0, false, false, "", false, false, false, 0, []⟩

/-- `JpwFile.number_to_base_note` of `jpw2ly.py`. -/
def number_to_base_note (n_char : Char) : Option Char :=
  if n_char = '1' then some 'c'
  else if n_char = '2' then some 'd'
  else if n_char = '3' then some 'e'
  else if n_char = '4' then some 'f'
  else if n_char = '5' then some 'g'
  else if n_char = '6' then some 'a'
  else if n_char = '7' then some 'b'
  else if n_char = '0' then some 'r'
  else none

/-- `JpwFile._finalize_current_note`: stamp the pending note's duration and
append it; the counter resets are done by the callers, as in the source. -/
def ly_finalize (st : LyState) : LyState :=
  match st.current_note with
  | none => st
  | some n =>
    let n := { n with lily_duration :=
      calculate_lily_duration_from_jpw st.u_count st.h_count st.dot }
    { st with current_note := none, notes := st.notes ++ [LyItem.note n] }

/-- `self.notes[-1].slur_end = True` guarded by
`self.notes and isinstance(self.notes[-1], Note)`. -/
def lySetLastSlurEnd : List LyItem → List LyItem
  | [] => []
  | [LyItem.note n] => [LyItem.note { n with slur_end := true }]
  | [x] => [x]
  | x :: xs => x :: lySetLastSlurEnd xs

/-- `JpwFile.parse_multichar_token` of `jpw2ly.py`: like the jpw2xml
version, except that an alternative-bracket token extends to the closing
`)` when one exists (otherwise to the end of the line). -/
def parse_multichar_token (cs : List Char) (index : ℕ) (start_char : Char) :
    String × ℕ :=
  if start_char = '|' then
    if index + 1 < cs.length then
      let c1 := cs.getD (index + 1) ' '
      if c1 = ']' then ("|]", 1)
      else if c1 = '|' then ("||", 1)
      else if c1 = ':' then ("|:", 1)
      else if c1 = '[' then
        if altRegexMatch (cs.drop index) then
          match pyFind cs ')' index with
          | some j =>
            let tok := String.mk ((cs.drop index).take (j + 1 - index))
            (tok, tok.length - 1)
          | none =>
            let tok := String.mk (cs.drop index)
            (tok, tok.length - 1)
        else (String.mk [start_char], 0)
      else (String.mk [start_char], 0)
    else (String.mk [start_char], 0)
  else if start_char = ':' then
    if index + 1 < cs.length ∧ cs.getD (index + 1) ' ' = '|' then
      if index + 2 < cs.length ∧ cs.getD (index + 2) ' ' = ':' then (":|:", 2)
      else (":|", 1)
    else (String.mk [start_char], 0)
  else if start_char = '[' then
    if index + 2 < cs.length ∧ cs.getD (index + 1) ' ' = '|' ∧ cs.getD (index + 2) ' ' = ']'
    then ("[|]", 2)
    else (String.mk [start_char], 0)
  else (String.mk [start_char], 0)

/-- `JpwFile.parse_bars` of `jpw2ly.py`: maps a barline token to the
Lilypond string appended to `notes`, updating `alternative_opened` and
`alternative_closing_needed`.  Literal braces in the output strings are
written with their escape codes. -/
def parse_bars (token : String) (alternative_opened : Bool)
    (alternative_closing_needed : ℕ) : String × Bool × ℕ :=
  let token := token.trim
  if token = "|" then ("|", alternative_opened, alternative_closing_needed)
  else if token = "||" then ("\\bar \"||\"", alternative_opened, alternative_closing_needed)
  else if token = "[|]" then ("\\bar \"[|]\"", alternative_opened, alternative_closing_needed)
  else if token = "|:" then ("\\bar \"|:\"", alternative_opened, 0)
  else if token = ":|:" then ("\\bar \":|:\"", alternative_opened, alternative_closing_needed)
  else if altRegexMatch token.toList then
    if ¬ alternative_opened then
      ("\\repeat volta 2 \x7b \\alternative \x7b \x7b", true, 2)
    else ("\x7d \x7b", alternative_opened, alternative_closing_needed)
  else if token = ":|" then
    if alternative_opened then ("\\bar \":|.\" \x7d", alternative_opened, alternative_closing_needed)
    else ("\\bar \":|.\" ", alternative_opened, 0)
  else if token = "|]" then
    if alternative_opened then ("\\bar \"|.\" \x7d", alternative_opened, alternative_closing_needed)
    else ("\\bar \"|.\"", alternative_opened, 0)
  else ("|", alternative_opened, alternative_closing_needed)

/-- Reset of the loose accumulators `o_mod, u_count, h_count, dot`, done by
most branches of the jpw2ly loop. -/
def lyResetCounts (st : LyState) : LyState :=
  { st with o_mod := 0, u_count := 0, h_count := 0, dot := false }

/-- One iteration of the `while i < line_len` loop of
`JpwFile.parse_voice_char_by_char`, given `i < cs.length`.  The
unknown-character pushback (`i -= 1` followed by the loop's `i += 1`) is
modelled as returning the same index with the pending note finalized. -/
def lyStep (cs : List Char) (i : ℕ) (st : LyState) : ℕ × LyState :=
  let char := cs.getD i ' '
  if char = '$' ∧ i + 1 < cs.length ∧ cs.getD (i + 1) ' ' = '(' then
    let st := lyResetCounts (ly_finalize st)
    (i + 1, { st with is_inside_slur := false, in_dollar := true })
  else if st.in_dollar then
    (i + 1, if char = ')' then { st with in_dollar := false } else st)
  else if char = '{' then
    (i + 1, { st with in_special := true, special_content := "" })
  else if st.in_special then
    if char = '}' then
      let st := { st with in_special := false }
      (i + 1,
        match st.current_note with
        | some n =>
          if st.special_content = "ZhongYin" then
            { st with current_note := some { n with accent := true } }
          else if st.special_content = "BoYin" then
            { st with current_note := some { n with prall := true } }
          else st
        | none => st)
    else (i + 1, { st with special_content := st.special_content.push char })
  else if char = '(' then
    let st := lyResetCounts (ly_finalize st)
    (i + 1, { st with is_inside_slur := true })
  else if char = ')' then
    if st.is_inside_slur then
      let st := ly_finalize st
      let st := { st with notes := lySetLastSlurEnd st.notes }
      (i + 1, { lyResetCounts st with is_inside_slur := false })
    else (i + 1, st)
  else if char ∈ ['|', ':', '['] then
    if st.is_inside_slur then (i + 1, st)
    else
      let st := lyResetCounts (ly_finalize st)
      let st := { st with is_inside_slur := false }
      let tc := parse_multichar_token cs i char
      let bo := parse_bars tc.1 st.alternative_opened st.alternative_closing_needed
      let st := { st with alternative_opened := bo.2.1,
                          alternative_closing_needed := bo.2.2,
                          notes := if bo.1 ≠ "" then st.notes ++ [LyItem.bar bo.1]
                                   else st.notes }
      (i + tc.2 + 1, st)
  else if isPyDigit char then
    let st := lyResetCounts (ly_finalize st)
    match number_to_base_note char with
    | none => (i + 1, { st with current_note := none })
    | some base =>
      let n : LyNote :=
        { base_note := base, octave := 0, lily_duration := "4",
          is_rest := base = 'r', slur_start := st.is_inside_slur,
          slur_end := false, accent := false, prall := false }
      (i + 1, { st with current_note := some n })
  else
    match st.current_note with
    | some n =>
      if char = octUp then
        (i + 1, { st with o_mod := st.o_mod + 1,
                          current_note := some { n with octave := st.o_mod + 1 } })
      else if char = ',' then
        (i + 1, { st with o_mod := st.o_mod - 1,
                          current_note := some { n with octave := st.o_mod - 1 } })
      else if char = '_' then
        (i + 1, { st with u_count := st.u_count + 1 })
      else if char = '-' then
        (i + 1, { st with h_count := st.h_count + 1 })
      else if char = '.' then
        (i + 1, { st with dot := true })
      else if ¬ isPySpace char then
        let st := lyResetCounts (ly_finalize st)
        (i, { st with is_inside_slur := false })
      else (i + 1, st)
    | none =>
      if isPySpace char then
        let st := lyResetCounts (ly_finalize st)
        (i + 1, { st with is_inside_slur := false })
      else (i + 1, st)

/-- The `while i < line_len` loop of `parse_voice_char_by_char`, with an
explicit fuel parameter. -/
def lyLoop (cs : List Char) : ℕ → ℕ → LyState → Option LyState
  | 0, _, _ => none
  | fuel + 1, i, st =>
    if i < cs.length then
      let p := lyStep cs i st
      lyLoop cs fuel p.1 p.2
    else some st

/-- Processing of one `.Voice` line by `parse_voice_char_by_char`: the
character loop, then the end-of-line finalize, counter reset and slur
reset. -/
def lyParseLine (st : LyState) (line : String) : Option LyState :=
  (lyLoop line.toList (2 * line.toList.length + 2) 0 st).map
    (fun st' => { lyResetCounts (ly_finalize st') with is_inside_slur := false })

/-- `JpwFile.parse_voice_char_by_char` of `jpw2ly.py`: parse the voice lines
into the `notes` list. -/
def parse_voice_char_by_char (voice_lines : List String) : Option (List LyItem) :=
  (voice_lines.foldlM lyParseLine initLyState).map LyState.notes

/-! ## Tuplet handling of `create_musicxml` (`code(最新mid2jpw).py`) -/

/-- One element of `notes_in_tuplet_matches` in `create_musicxml`: an inner
match of `note_pattern` against the tuplet content — a note match (groups
1–5), a rest match (groups 11–13), or any other alternative, which the
member loop skips with `continue`. -/
inductive InnerMatch where
  | note (acc num octs : String) (unders dots : Option String)
  | rest (unders dots : Option String)
  | other
  deriving DecidableEq, Repr

/-- A `<note>` element created inside a tuplet by `create_musicxml`, with
its `<time-modification>` (actual-notes, normal-notes) and `<tuplet>`
notation attributes. -/
inductive TupMember where
  | note (accidental : Option String) (step : Char) (alter : ℤ) (octave : ℕ)
      (duration : ℤ) (note_type : String) (dots : ℕ)
      (actual_notes normal_notes : ℕ) (tuplet_type bracket : String)
  | rest (duration : ℤ) (note_type : String) (dots : ℕ)
      (actual_notes normal_notes : ℕ) (tuplet_type bracket : String)
  deriving DecidableEq, Repr

/-- The `<time-modification>` ratio carried by a tuplet member. -/
def TupMember.timeMod : TupMember → ℕ × ℕ
  | TupMember.note _ _ _ _ _ _ _ a n _ _ => (a, n)
  | TupMember.rest _ _ _ a n _ _ => (a, n)

/-- Python truthiness-and-`isdigit` test
`ratio_digit_str and ratio_digit_str.isdigit()`. -/
def pyTruthyDigits (s : String) : Bool :=
  s ≠ "" ∧ s.toList.all isPyDigit

/-- Lines 237–241 of `create_musicxml`: `actual_notes = 3; normal_notes = 2`
overwritten by the captured ratio digit when it is present and numeric. -/
def tuplet_ratio (ratio_digit_str : Option String) : ℕ × ℕ :=
  match ratio_digit_str with
  | some s => if pyTruthyDigits s then (strToNat s, 2) else (3, 2)
  | none => (3, 2)

/-- The tuplet member loop of `create_musicxml` (lines 252–281): walk
`notes_in_tuplet_matches` with its enumeration index, create a `<note>` for
each note/rest match (notes whose pitch lookup fails are dropped), and
annotate every created note with the same time-modification ratio and with
start/stop/continue tuplet marks computed from the index against the total
match count. -/
def buildTupletMembers (actual_notes normal_notes total : ℕ) :
    List InnerMatch → ℕ → List TupMember
  | [], _ => []
  | m :: rest, i =>
    let is_first := i = 0
    let is_last := i = total - 1
    let tuplet_type := if is_first then "start" else if is_last then "stop" else "continue"
    let bracket_val := if is_first then "yes" else "no"
    match m with
    | InnerMatch.note acc num octs unders dots =>
      (match pitch_to_musicxml num acc octs with
       | some (step, alter, octave, acc_type) =>
         let d := duration_to_musicxml unders dots
         TupMember.note acc_type step alter octave d.1 d.2.1 d.2.2.2
           actual_notes normal_notes tuplet_type bracket_val ::
           buildTupletMembers actual_notes normal_notes total rest (i + 1)
       | none => buildTupletMembers actual_notes normal_notes total rest (i + 1))
    | InnerMatch.rest unders dots =>
      let d := duration_to_musicxml unders dots
      TupMember.rest d.1 d.2.1 d.2.2.2 actual_notes normal_notes tuplet_type bracket_val ::
        buildTupletMembers actual_notes normal_notes total rest (i + 1)
    | InnerMatch.other => buildTupletMembers actual_notes normal_notes total rest (i + 1)

/-! ## Helper lemmas -/

/-- Closed form of the dot loop of `duration_to_musicxml`. -/
theorem dotIncrementLoop_eq (n : ℕ) : ∀ inc tot : ℚ,
    dotIncrementLoop inc tot n = tot + inc * (1 - (1/2) ^ n) := by
  induction n with
  | zero => intro inc tot; simp [dotIncrementLoop]
  | succ k ih => intro inc tot; rw [dotIncrementLoop, ih, pow_succ]; ring

/-! ## Claim C1 -/

/-- The exact-rational reading of both duration expressions satisfies the
claimed formula and positivity: `calculate_beats_from_jpw` equals
`(1 * 0.5^u + h) * dot_factor(d)` and is positive, and the exact pre-rounding
total of `duration_to_musicxml` equals the same formula at base 4 divisions
with the multi-dot factor.  Helper for the amended C1: the double-precision
evaluation agrees with these values exactly when no rounding occurs. -/
theorem exact_beats_formula_and_positive :
    (∀ (u h : ℕ) (d : Bool),
      calculate_beats_from_jpw u h d =
        (1 * (1/2 : ℚ) ^ u + h) * specDotFactor (if d then 1 else 0) ∧
      0 < calculate_beats_from_jpw u h d) ∧
    (∀ us ds : Option String,
      duration_to_musicxml_total us ds =
        4 * ((1 * (1/2 : ℚ) ^ (us.getD "").length + 0) *
          specDotFactor (ds.getD "").length) ∧
      0 < duration_to_musicxml_total us ds) := by
  have hhalf : ∀ n : ℕ, (0:ℚ) < (1/2) ^ n := fun n => pow_pos (by norm_num) n
  have hfac : ∀ n : ℕ, (0:ℚ) < specDotFactor n := by
    intro n
    have h1 : (1/2 : ℚ) ^ n ≤ 1 := pow_le_one₀ (by norm_num) (by norm_num)
    have := hhalf n
    unfold specDotFactor
    linarith
  constructor
  · intro u h d
    have hb : (0:ℚ) < 1 * (1/2) ^ u + h := by
      have := hhalf u
      have : (0:ℚ) ≤ (h:ℚ) := Nat.cast_nonneg h
      nlinarith [hhalf u]
    cases d
    · refine ⟨?_, ?_⟩
      · show (1 * (1/2 : ℚ) ^ u + h) = _
        unfold specDotFactor
        norm_num
      · exact hb
    · refine ⟨?_, ?_⟩
      · show (1 * (1/2 : ℚ) ^ u + h) * (3/2) = _
        unfold specDotFactor
        norm_num
      · show (0:ℚ) < (1 * (1/2) ^ u + h) * (3/2)
        nlinarith
  · intro us ds
    have hcur : (0:ℚ) < 4 / 2 ^ (us.getD "").length := by
      have : (0:ℚ) < 2 ^ (us.getD "").length := pow_pos (by norm_num) _
      positivity
    have heq : duration_to_musicxml_total us ds =
        4 * ((1 * (1/2 : ℚ) ^ (us.getD "").length + 0) *
          specDotFactor (ds.getD "").length) := by
      unfold duration_to_musicxml_total BASE_DURATION_DIVISIONS specDotFactor
      rw [dotIncrementLoop_eq]
      rw [div_pow, one_pow]
      field_simp
      ring
    refine ⟨heq, ?_⟩
    rw [heq]
    have h1 := hhalf (us.getD "").length
    have h2 := hfac (ds.getD "").length
    nlinarith


/-- Whenever every double-precision operation in the duration expression is
exact (no rounding at the power, the integer conversion, the sum, and the
dot scaling), the float evaluation returns the claimed formula value,
which is strictly positive and coincides with the exact-rational reading.
Helper for the amended C1. -/
theorem float_beats_formula_of_exact :
    ∀ (u h : ℕ) (d : Bool),
      flRound ((1/2 : ℚ) ^ u) = (1/2 : ℚ) ^ u →
      flRound (h : ℚ) = (h : ℚ) →
      flRound ((1/2 : ℚ) ^ u + h) = (1/2 : ℚ) ^ u + h →
      flRound (((1/2 : ℚ) ^ u + h) * (3/2)) = ((1/2 : ℚ) ^ u + h) * (3/2) →
      calculate_beats_from_jpw_float u h d =
        (1 * (1/2 : ℚ) ^ u + h) * specDotFactor (if d then 1 else 0) ∧
      0 < calculate_beats_from_jpw_float u h d ∧
      calculate_beats_from_jpw_float u h d = calculate_beats_from_jpw u h d := by
  intro u h d h1 h2 h3 h4
  have hm : fmul 1 (flRound ((1/2 : ℚ) ^ u)) = (1/2 : ℚ) ^ u := by
    rw [h1, fmul, one_mul, h1]
  have hcur : fadd (fmul 1 (flRound ((1/2 : ℚ) ^ u))) (flRound (h : ℚ)) =
      (1/2 : ℚ) ^ u + h := by
    rw [hm, h2, fadd, h3]
  have hval : calculate_beats_from_jpw_float u h d =
      ((1/2 : ℚ) ^ u + h) * (if d then (3/2 : ℚ) else 1) := by
    unfold calculate_beats_from_jpw_float
    rw [hcur]
    cases d
    · simp
    · simp only [if_true]
      rw [fmul, h4]
  have hexact : calculate_beats_from_jpw u h d =
      ((1/2 : ℚ) ^ u + h) * (if d then (3/2 : ℚ) else 1) := by
    unfold calculate_beats_from_jpw
    cases d <;> simp <;> ring
  have hpos0 : (0 : ℚ) < (1/2 : ℚ) ^ u + h := by
    have h5 : (0 : ℚ) < (1/2 : ℚ) ^ u := pow_pos (by norm_num) u
    have h6 : (0 : ℚ) ≤ (h : ℚ) := Nat.cast_nonneg h
    linarith
  refine ⟨?_, ?_, ?_⟩
  · rw [hval]
    cases d
    · show ((1/2 : ℚ) ^ u + h) * 1 = (1 * (1/2 : ℚ) ^ u + h) * specDotFactor 0
      unfold specDotFactor
      norm_num
    · show ((1/2 : ℚ) ^ u + h) * (3/2) = (1 * (1/2 : ℚ) ^ u + h) * specDotFactor 1
      unfold specDotFactor
      norm_num
  · rw [hval]
    cases d
    · simpa using hpos0
    · show (0 : ℚ) < ((1/2 : ℚ) ^ u + h) * (3/2)
      nlinarith
  · rw [hval, hexact]

section RatEvalHalf

attribute [local semireducible] Rat.add Rat.sub Rat.mul Rat.inv Rat.ofScientific

/-- Numerator of the rational one half. -/
theorem half_num : (1/2 : ℚ).num = 1 := by decide

/-- Denominator of the rational one half. -/
theorem half_den : (1/2 : ℚ).den = 2 := by decide

end RatEvalHalf

/-- Characterization of the fueled floor base-2 logarithm on positive inputs
within fuel: it names the binade, `2 ^ log ≤ n < 2 ^ (log + 1)`. -/
theorem natLog2Aux_char :
    ∀ fuel n, n ≤ fuel → 1 ≤ n →
      2 ^ natLog2Aux fuel n ≤ n ∧ n < 2 ^ (natLog2Aux fuel n + 1) := by
  intro fuel
  induction fuel with
  | zero => intro n h1 h2; omega
  | succ f ih =>
    intro n h1 h2
    by_cases hle : n ≤ 1
    · rw [natLog2Aux, if_pos hle]
      constructor
      · simpa using h2
      · simpa using by omega
    · rw [natLog2Aux, if_neg hle]
      have hn2 : 2 ≤ n := by omega
      obtain ⟨hlo, hhi⟩ := ih (n / 2) (by omega) (by omega)
      constructor
      · calc 2 ^ (natLog2Aux f (n / 2) + 1) = 2 * 2 ^ natLog2Aux f (n / 2) := by ring
          _ ≤ 2 * (n / 2) := by omega
          _ ≤ n := by omega
      · have h4 : 2 ^ (natLog2Aux f (n / 2) + 1 + 1) = 2 * 2 ^ (natLog2Aux f (n / 2) + 1) := by
          ring
        omega

/-- Characterization of `natLog2` on positive inputs. -/
theorem natLog2_char (n : ℕ) (h : 1 ≤ n) :
    2 ^ natLog2 n ≤ n ∧ n < 2 ^ (natLog2 n + 1) :=
  natLog2Aux_char n n le_rfl h

/-- Every positive rational at most `2^-1075` (stated through numerator and
denominator: `num * 2^k ≤ den` for some `k ≥ 1075`) underflows to `0` under
binary64 rounding: it is at most half of the smallest positive subnormal
`2^-1074`, and the tie at exactly half rounds to the even `0`. -/
theorem flRound_tiny (k : ℕ) (hk : 1075 ≤ k) (q : ℚ) (hq : 0 < q)
    (hd : q.num * 2 ^ k ≤ (q.den : ℤ)) : flRound q = 0 := by
  have hnum : 0 < q.num := Rat.num_pos.mpr hq
  have hnum1 : 1 ≤ q.num.toNat := by omega
  have hden1 : 1 ≤ q.den := q.pos
  obtain ⟨hnlo, hnhi⟩ := natLog2_char q.num.toNat hnum1
  obtain ⟨hdlo, hdhi⟩ := natLog2_char q.den hden1
  have h2 : (2 : ℤ) ^ natLog2 q.num.toNat ≤ q.num := by
    have h2a : ((2 ^ natLog2 q.num.toNat : ℕ) : ℤ) ≤ (q.num.toNat : ℤ) :=
      Int.ofNat_le.mpr hnlo
    rwa [Int.toNat_of_nonneg hnum.le, Nat.cast_pow, Nat.cast_ofNat] at h2a
  have h3 : (2 : ℤ) ^ (natLog2 q.num.toNat + k) ≤ q.num * 2 ^ k := by
    rw [pow_add]
    exact mul_le_mul_of_nonneg_right h2 (by positivity)
  have h5 : (2 : ℤ) ^ (natLog2 q.num.toNat + k) ≤ (q.den : ℤ) := h3.trans hd
  have h6 : 2 ^ (natLog2 q.num.toNat + k) ≤ q.den := by
    have h6a : ((2 ^ (natLog2 q.num.toNat + k) : ℕ) : ℤ) ≤ (q.den : ℤ) := by
      rw [Nat.cast_pow, Nat.cast_ofNat]; exact h5
    exact Nat.cast_le.mp h6a
  have hgap : natLog2 q.num.toNat + k < natLog2 q.den + 1 :=
    (pow_lt_pow_iff_right₀ (by norm_num : (1:ℕ) < 2)).mp (lt_of_le_of_lt h6 hdhi)
  have he0 : (natLog2 q.num.toNat : ℤ) - natLog2 q.den ≤ -1075 := by omega
  have hulp : floatUlp q = pow2z (-1074) := by
    simp only [floatUlp]
    split_ifs with h1 h2 h3 <;> first | omega | rfl
  have hUval : pow2z (-1074) = (1/2 : ℚ) ^ 1074 := by
    simp only [pow2z]
    rw [if_neg (by omega : ¬(0 : ℤ) ≤ -1074), neg_neg]
    rfl
  have hUpos : (0 : ℚ) < (1/2 : ℚ) ^ 1074 := by positivity
  have hdq : ((q.num : ℚ)) * 2 ^ k ≤ (q.den : ℚ) := by
    have hcast : ((q.num * 2 ^ k : ℤ) : ℚ) ≤ ((q.den : ℤ) : ℚ) := Int.cast_le.mpr hd
    push_cast at hcast
    exact hcast
  have hqle : q ≤ (1/2 : ℚ) ^ k := by
    rw [div_pow, one_pow, ← Rat.num_div_den q,
      div_le_div_iff₀ (by exact_mod_cast hden1 : (0 : ℚ) < (q.den : ℚ)) (by positivity)]
    linarith
  have hqle2 : q ≤ (1/2 : ℚ) ^ 1075 :=
    hqle.trans (pow_le_pow_of_le_one (by norm_num) (by norm_num) hk)
  have hxpos : 0 < q / (1/2 : ℚ) ^ 1074 := div_pos hq hUpos
  have hxle : q / (1/2 : ℚ) ^ 1074 ≤ 1/2 := by
    rw [div_le_iff₀ hUpos]
    calc q ≤ (1/2 : ℚ) ^ 1075 := hqle2
      _ = 1/2 * (1/2 : ℚ) ^ 1074 := by rw [← pow_succ']
  have hround : pyRound (q / (1/2 : ℚ) ^ 1074) = 0 := by
    set x := q / (1/2 : ℚ) ^ 1074 with hx
    unfold pyRound
    by_cases hden2 : x.den = 2
    · rw [if_pos hden2]
      have hfl : ⌊x⌋ = 0 := by
        rw [Int.floor_eq_zero_iff]
        exact ⟨le_of_lt hxpos, by linarith⟩
      rw [hfl]
      norm_num
    · rw [if_neg hden2]
      have hxlt : x < 1/2 := by
        rcases lt_or_eq_of_le hxle with h | h
        · exact h
        · exact absurd (h ▸ half_den) hden2
      rw [round_eq, Int.floor_eq_zero_iff]
      constructor
      · linarith
      · linarith
  unfold flRound
  rw [if_neg hq.ne', if_neg (not_lt.mpr hq.le), hulp, hUval, hround,
    Int.cast_zero, zero_mul]

section RatEvalC1H

attribute [local semireducible] Rat.add Rat.sub Rat.mul Rat.inv Rat.ofScientific

set_option maxRecDepth 8000 in
/-- For every halving count below 53 (and no extension), the
double-precision evaluation of `calculate_beats_from_jpw` is rounding-free:
it agrees with the exact-rational reading and is strictly positive, with or
without the dot.  Helper for the amended C1. -/
theorem float_beats_small_exact :
    ∀ u < 53, ∀ d : Bool,
      calculate_beats_from_jpw_float u 0 d = calculate_beats_from_jpw u 0 d ∧
      0 < calculate_beats_from_jpw_float u 0 d := by
  decide

set_option maxRecDepth 8000 in
/-- For every halving count below 53 and dot count below 3, the
double-precision pre-rounding total of `duration_to_musicxml` equals the
claimed formula at base 4 divisions and is strictly positive.  Helper for
the amended C1. -/
theorem duration_total_float_small_exact :
    ∀ u < 53, ∀ dn < 3,
      duration_total_float u dn =
        4 * ((1 * (1/2 : ℚ) ^ u + 0) * specDotFactor dn) ∧
      0 < duration_total_float u dn := by
  decide

set_option maxRecDepth 8000 in
/-- Tie to even at `(u, h, d) = (53, 1, false)`: the double sum
`0.5^53 + 1.0` lies exactly halfway between `1` and the next double, rounds
to the even `1`, and so differs from both the claimed formula value
`1 + 2^-53` and the exact-rational reading.  Helper for the C1
counterexample. -/
theorem float_tie_53 :
    calculate_beats_from_jpw_float 53 1 false = 1 ∧
    calculate_beats_from_jpw_float 53 1 false ≠
      (1 * (1/2 : ℚ) ^ 53 + 1) * specDotFactor 0 ∧
    calculate_beats_from_jpw_float 53 1 false ≠ calculate_beats_from_jpw 53 1 false := by
  refine ⟨by decide, by decide, by decide⟩

end RatEvalC1H

/-- Underflow at `u = 1075`: the power `0.5^1075` is half of the smallest
positive subnormal double, ties to the even `0` (`flRound_tiny`), and the
resolver returns `0`.  Helper for the C1 counterexample. -/
theorem float_underflow_1075 : calculate_beats_from_jpw_float 1075 0 false = 0 := by
  have hpow0 : flRound ((1/2 : ℚ) ^ 1075) = 0 := by
    apply flRound_tiny 1075 le_rfl
    · exact pow_pos (by norm_num) 1075
    · rw [Rat.num_pow, Rat.den_pow, half_num, half_den, one_pow, one_mul,
        Nat.cast_pow, Nat.cast_ofNat]
  have hfl0 : flRound (0 : ℚ) = 0 := by
    unfold flRound
    rw [if_pos rfl]
  show fadd (fmul 1 (flRound ((1/2 : ℚ) ^ 1075))) (flRound ((0 : ℕ) : ℚ)) = 0
  rw [hpow0, Nat.cast_zero, hfl0]
  unfold fmul fadd
  rw [mul_zero, hfl0, zero_add, hfl0]

/-- C1 counterexample: the program evaluates the duration formula in IEEE-754
double precision, and inside the claim's quantifier range the double result
diverges from the claimed formula.  At `(u, h, d) = (53, 1, false)` the sum
`0.5^53 + 1.0` is a tie between 1 and the next double and rounds to even,
so the resolver returns exactly `1`, not the formula value `1 + 2^-53`; and
at `(u, h, d) = (1075, 0, false)` the power `0.5^1075` underflows to `0`,
so the resolver returns `0`, refuting strict positivity. -/
theorem duration_resolver_float_counterexample :
    calculate_beats_from_jpw_float 53 1 false = 1 ∧
    calculate_beats_from_jpw_float 53 1 false ≠
      (1 * (1/2 : ℚ) ^ 53 + 1) * specDotFactor 0 ∧
    calculate_beats_from_jpw_float 53 1 false ≠ calculate_beats_from_jpw 53 1 false ∧
    calculate_beats_from_jpw_float 1075 0 false = 0 :=
  ⟨float_tie_53.1, float_tie_53.2.1, float_tie_53.2.2, float_underflow_1075⟩

/-- C1 amended: the duration resolvers evaluate
`beats = (base_unit * 0.5^u + h) * dot_factor(d)` in double precision, so
the claimed formula and strict positivity hold exactly on the rounding-free
range: whenever each double operation returns its exact value, the resolver
returns the formula value, strictly positive, equal to the exact-rational
reading; unconditionally this covers every `u < 53` with `h = 0` for
`calculate_beats_from_jpw` (either dot flag) and every `u < 53`, dot count
below 3, for the divisions-based total of `duration_to_musicxml` (base
unit 4 divisions = 1 quarter note).  Outside that range rounding can break
the formula (ties-to-even at `u = 53, h = 1`) and underflow can break
positivity (`u = 1075`), as the counterexample shows. -/
theorem duration_resolver_float_amended :
    (∀ (u h : ℕ) (d : Bool),
      flRound ((1/2 : ℚ) ^ u) = (1/2 : ℚ) ^ u →
      flRound (h : ℚ) = (h : ℚ) →
      flRound ((1/2 : ℚ) ^ u + h) = (1/2 : ℚ) ^ u + h →
      flRound (((1/2 : ℚ) ^ u + h) * (3/2)) = ((1/2 : ℚ) ^ u + h) * (3/2) →
      calculate_beats_from_jpw_float u h d =
        (1 * (1/2 : ℚ) ^ u + h) * specDotFactor (if d then 1 else 0) ∧
      0 < calculate_beats_from_jpw_float u h d ∧
      calculate_beats_from_jpw_float u h d = calculate_beats_from_jpw u h d) ∧
    (∀ u < 53, ∀ d : Bool,
      calculate_beats_from_jpw_float u 0 d = calculate_beats_from_jpw u 0 d ∧
      0 < calculate_beats_from_jpw_float u 0 d) ∧
    (∀ u < 53, ∀ dn < 3,
      duration_total_float u dn =
        4 * ((1 * (1/2 : ℚ) ^ u + 0) * specDotFactor dn) ∧
      0 < duration_total_float u dn) :=
  ⟨float_beats_formula_of_exact, float_beats_small_exact,
    duration_total_float_small_exact⟩

section RatEvalC1W

attribute [local semireducible] Rat.add Rat.sub Rat.mul Rat.inv Rat.ofScientific

/-- C1 witness: the amended statement at concrete inputs — at
`(u, h, d) = (1, 1, true)` every double operation is exact, so the float
resolver returns the formula value `9/4 > 0` agreeing with the exact
reading; the finite parts at `u = 5` and `(u, dn) = (2, 1)`. -/
theorem duration_resolver_float_amended_witness :
    calculate_beats_from_jpw_float 1 1 true =
      (1 * (1/2 : ℚ) ^ 1 + 1) * specDotFactor 1 ∧
    0 < calculate_beats_from_jpw_float 1 1 true ∧
    calculate_beats_from_jpw_float 1 1 true = calculate_beats_from_jpw 1 1 true ∧
    calculate_beats_from_jpw_float 5 0 false = calculate_beats_from_jpw 5 0 false ∧
    duration_total_float 2 1 = 4 * ((1 * (1/2 : ℚ) ^ 2 + 0) * specDotFactor 1) := by
  obtain ⟨w1, w2, w3⟩ := duration_resolver_float_amended.1 1 1 true
    (by decide) (by decide) (by decide) (by decide)
  exact ⟨w1, w2, w3,
    (duration_resolver_float_amended.2.1 5 (by norm_num) false).1,
    (duration_resolver_float_amended.2.2 2 (by norm_num) 1 (by norm_num)).1⟩

end RatEvalC1W

/-! ## Claim C2 -/

/-- C2: resolving degree 4 with explicit accidental `#` under F major (whose
key signature flats the degree's step B) yields a natural B with semitone
alteration 0, never a double alteration.  First conjunct:
`pitch_to_musicxml` of `code(最新mid2jpw).py` (key hard-wired to F major,
`KEY_SIGNATURE_FIFTHS = -1`), for every octave-mark string.  Remaining
conjuncts: the same resolution through `get_key_info`/`jpw_pitch_to_musicxml`
of `jpw2xml.py` with key string `1=F` (root MIDI 65, major mode): the result
is step `B`, alteration string `"0"`, octave `5`. -/
theorem explicit_sharp_cancels_key_flat :
    (∀ octave_str : String,
      pitch_to_musicxml "4" "#" octave_str =
        some ('B', 0, 4 + octave_str.length, some "natural")) ∧
    get_key_info "1=F" = (65, 0, -1) ∧
    jpw_pitch_to_musicxml '4' 0 "#" 65 0 = some ('B', "0", "5") := by
  refine ⟨fun octave_str => rfl, by decide, by decide⟩

/-! ## Claim C5 -/

section RatEvalC5

attribute [local semireducible] Rat.add Rat.sub Rat.mul Rat.inv Rat.ofScientific

/-- C5 counterexample: the beat value `5` produced by the forward resolver
from `(u, h, d) = (0, 4, false)` has no entry within tolerance in the
notated-type table of `calculate_lily_duration_from_jpw`, so the lookup
falls back to the quarter note `"4"`, which re-resolves to `1` beat — not
equal to the original `5` within the `0.001` lookup tolerance.  This
refutes the claim that the round-trip holds for every produced beat
value. -/
theorem duration_roundtrip_counterexample :
    calculate_beats_from_jpw 0 4 false = 5 ∧
    calculate_lily_duration_from_jpw 0 4 false = "4" ∧
    lily_duration_to_beats "4" = some 1 ∧
    ¬ |(1 : ℚ) - calculate_beats_from_jpw 0 4 false| < 1/1000 := by
  decide

end RatEvalC5

section RatEvalC5R

attribute [local semireducible] Rat.add Rat.sub Rat.mul Rat.inv Rat.ofScientific

/-- Re-resolving any entry of the notated-type table recovers exactly the
entry's beat value (the table's duration strings are pairwise distinct). -/
theorem lyDurMap_reverse_resolves :
    ∀ p ∈ lyDurMap, lily_duration_to_beats p.2 = some p.1 := by
  decide

end RatEvalC5R

/-- C5 amended: whenever the beat value produced by the forward resolver
from `(u, h, d)` matches an entry of the notated-type table within the
`0.001` tolerance (that is, whenever the lookup does not take its
quarter-note fallback), the looked-up notated type re-resolves to a beat
value equal to the original within that tolerance, even when the recovered
type corresponds to a different `(u, h, d)` triple.  Beat values with no
close entry fall back to `"4"` and need not round-trip. -/
theorem duration_roundtrip_amended :
    ∀ (u h : ℕ) (d : Bool) (b : ℚ) (s : String),
      lyDurMap.find?
        (fun p => decide (|calculate_beats_from_jpw u h d - p.1| < 1/1000)) =
          some (b, s) →
      calculate_lily_duration_from_jpw u h d = s ∧
      lily_duration_to_beats s = some b ∧
      |b - calculate_beats_from_jpw u h d| < 1/1000 := by
  intro u h d b s hf
  have hp := List.find?_some hf
  have hm := List.mem_of_find?_eq_some hf
  have habs : |calculate_beats_from_jpw u h d - b| < 1/1000 := by
    simpa using hp
  refine ⟨?_, ?_, ?_⟩
  · unfold calculate_lily_duration_from_jpw
    rw [hf]
    rfl
  · exact lyDurMap_reverse_resolves (b, s) hm
  · rw [abs_sub_comm]
    exact habs

section RatEvalC5W

attribute [local semireducible] Rat.add Rat.sub Rat.mul Rat.inv Rat.ofScientific

/-- C5 witness: the amended round-trip at `(u, h, d) = (1, 1, false)`,
whose beat value `1.5` matches the dotted quarter `"4."` and re-resolves to
`1.5` exactly. -/
theorem duration_roundtrip_amended_witness :
    calculate_lily_duration_from_jpw 1 1 false = "4." ∧
    lily_duration_to_beats "4." = some (3/2) ∧
    |(3/2 : ℚ) - calculate_beats_from_jpw 1 1 false| < 1/1000 :=
  duration_roundtrip_amended 1 1 false (3/2) "4." (by decide)

end RatEvalC5W

/-! ## Termination of the scanning loops -/

/-- `pyFindAux` never returns an index below its starting index. -/
theorem pyFindAux_ge (c : Char) : ∀ (l : List Char) (i j : ℕ),
    pyFindAux c l i = some j → i ≤ j := by
  intro l
  induction l with
  | nil => intro i j h; simp [pyFindAux] at h
  | cons x xs ih =>
    intro i j h
    unfold pyFindAux at h
    split at h
    · injection h with h; omega
    · have := ih (i + 1) j h; omega

/-- `pyFind` never returns an index below its starting index. -/
theorem pyFind_ge (cs : List Char) (c : Char) (start j : ℕ)
    (h : pyFind cs c start = some j) : start ≤ j :=
  pyFindAux_ge c (cs.drop start) start j h

/-- After `finalize_and_add_event` no note is pending. -/
theorem finalize_and_add_event_clears (st : XmlState) :
    (finalize_and_add_event st).attrs.jpw_num = none := by
  unfold finalize_and_add_event
  split
  · assumption
  · rfl

/-- Every pending-branch step of the jpw2xml loop either advances the cursor
or re-processes the same character with the pending note cleared. -/
theorem xmlStepPending_progress (cs : List Char) (i : ℕ) (st : XmlState) (char : Char)
    (i' : ℕ) (st' : XmlState)
    (h : xmlStepPending cs i st char = some (i', st')) :
    i + 1 ≤ i' ∨ (i' = i ∧ st'.attrs.jpw_num = none) := by
  unfold xmlStepPending at h
  by_cases c1 : char = octUp
  · rw [if_pos c1] at h
    simp only [Option.some.injEq, Prod.mk.injEq] at h
    obtain ⟨rfl, rfl⟩ := h; left; omega
  rw [if_neg c1] at h
  by_cases c2 : char = ','
  · rw [if_pos c2] at h
    simp only [Option.some.injEq, Prod.mk.injEq] at h
    obtain ⟨rfl, rfl⟩ := h; left; omega
  rw [if_neg c2] at h
  by_cases c3 : char = '_'
  · rw [if_pos c3] at h
    simp only [Option.some.injEq, Prod.mk.injEq] at h
    obtain ⟨rfl, rfl⟩ := h; left; omega
  rw [if_neg c3] at h
  by_cases c4 : char = '-'
  · rw [if_pos c4] at h
    simp only [Option.some.injEq, Prod.mk.injEq] at h
    obtain ⟨rfl, rfl⟩ := h; left; omega
  rw [if_neg c4] at h
  by_cases c5 : char = '.'
  · rw [if_pos c5] at h
    simp only [Option.some.injEq, Prod.mk.injEq] at h
    obtain ⟨rfl, rfl⟩ := h; left; omega
  rw [if_neg c5] at h
  by_cases c6 : char = '#'
  · rw [if_pos c6] at h
    simp only [Option.some.injEq, Prod.mk.injEq] at h
    obtain ⟨rfl, rfl⟩ := h; left; omega
  rw [if_neg c6] at h
  by_cases c7 : char = 'b'
  · rw [if_pos c7] at h
    simp only [Option.some.injEq, Prod.mk.injEq] at h
    obtain ⟨rfl, rfl⟩ := h; left; omega
  rw [if_neg c7] at h
  by_cases c8 : char = '('
  · rw [if_pos c8] at h
    simp only [Option.some.injEq, Prod.mk.injEq] at h
    obtain ⟨rfl, rfl⟩ := h; left; omega
  rw [if_neg c8] at h
  by_cases c9 : char = ')'
  · rw [if_pos c9] at h
    simp only [Option.some.injEq, Prod.mk.injEq] at h
    obtain ⟨rfl, rfl⟩ := h; left; omega
  rw [if_neg c9] at h
  by_cases c10 : char = '{'
  · rw [if_pos c10] at h
    cases hfind : pyFind cs '}' i with
    | some j =>
      rw [hfind] at h
      have h2 : some (j + 1, st) = some (i', st') := h
      simp only [Option.some.injEq, Prod.mk.injEq] at h2
      obtain ⟨rfl, rfl⟩ := h2
      have := pyFind_ge _ _ _ _ hfind
      left; omega
    | none =>
      rw [hfind] at h
      have h2 : some (i + 1, st) = some (i', st') := h
      simp only [Option.some.injEq, Prod.mk.injEq] at h2
      obtain ⟨rfl, rfl⟩ := h2; left; omega
  rw [if_neg c10] at h
  by_cases c11 : char ∈ ['|', ':', '[', ']']
  · rw [if_pos c11] at h
    simp only [Option.some.injEq, Prod.mk.injEq] at h
    obtain ⟨rfl, rfl⟩ := h; left; omega
  rw [if_neg c11] at h
  simp only [Option.some.injEq, Prod.mk.injEq] at h
  obtain ⟨rfl, rfl⟩ := h
  right
  exact ⟨rfl, finalize_and_add_event_clears st⟩

theorem xmlStepNoPending_progress (cs : List Char) (i : ℕ) (st : XmlState) (char : Char)
    (i' : ℕ) (st' : XmlState)
    (h : xmlStepNoPending cs i st char = some (i', st')) :
    i + 1 ≤ i' := by
  unfold xmlStepNoPending at h
  by_cases c1 : char = '('
  · rw [if_pos c1] at h
    simp only [Option.some.injEq, Prod.mk.injEq] at h
    obtain ⟨rfl, rfl⟩ := h; omega
  rw [if_neg c1] at h
  by_cases c2 : char = ')'
  · rw [if_pos c2] at h
    simp only [Option.some.injEq, Prod.mk.injEq] at h
    obtain ⟨rfl, rfl⟩ := h; omega
  rw [if_neg c2] at h
  by_cases c3 : char ∈ ['|', ':', '[', ']']
  · rw [if_pos c3] at h
    simp only [Option.some.injEq, Prod.mk.injEq] at h
    obtain ⟨rfl, rfl⟩ := h; omega
  rw [if_neg c3] at h
  by_cases c4 : char = '{'
  · rw [if_pos c4] at h
    cases hfind : pyFind cs '}' i with
    | some j =>
      rw [hfind] at h
      have h2 : some (j + 1, st) = some (i', st') := h
      simp only [Option.some.injEq, Prod.mk.injEq] at h2
      obtain ⟨rfl, rfl⟩ := h2
      have := pyFind_ge _ _ _ _ hfind
      omega
    | none =>
      rw [hfind] at h
      have h2 : some (i + 1, st) = some (i', st') := h
      simp only [Option.some.injEq, Prod.mk.injEq] at h2
      obtain ⟨rfl, rfl⟩ := h2; omega
  rw [if_neg c4] at h
  simp only [Option.some.injEq, Prod.mk.injEq] at h
  obtain ⟨rfl, rfl⟩ := h; omega

theorem xmlStep_progress (cs : List Char) (i : ℕ) (st : XmlState)
    (hlt : i < cs.length) (i' : ℕ) (st' : XmlState)
    (h : xmlStep cs i st = some (i', st')) :
    i + 1 ≤ i' ∨
      (i' = i ∧ st'.attrs.jpw_num = none ∧ st.attrs.jpw_num.isSome = true) := by
  unfold xmlStep at h
  simp only [] at h
  by_cases c1 : cs.getD i ' ' = '/' ∧ i + 1 < cs.length ∧ cs.getD (i + 1) ' ' = '/'
  · rw [if_pos c1] at h
    exact Option.noConfusion h
  rw [if_neg c1] at h
  by_cases c2 : cs.getD i ' ' = '$' ∧ i + 1 < cs.length ∧ cs.getD (i + 1) ' ' = '('
  · rw [if_pos c2] at h
    cases hfind : pyFind cs ')' i with
    | some j =>
      rw [hfind] at h
      have h2 : some (j + 1, st) = some (i', st') := h
      simp only [Option.some.injEq, Prod.mk.injEq] at h2
      obtain ⟨rfl, rfl⟩ := h2
      have := pyFind_ge _ _ _ _ hfind
      left; omega
    | none =>
      rw [hfind] at h
      have h2 : some (cs.length, st) = some (i', st') := h
      simp only [Option.some.injEq, Prod.mk.injEq] at h2
      obtain ⟨rfl, rfl⟩ := h2; left; omega
  rw [if_neg c2] at h
  by_cases c3 : isPySpace (cs.getD i ' ') = true
  · rw [if_pos c3] at h
    simp only [Option.some.injEq, Prod.mk.injEq] at h
    obtain ⟨rfl, rfl⟩ := h; left; omega
  rw [if_neg c3] at h
  by_cases c4 : isPyDigit (cs.getD i ' ') = true
  · rw [if_pos c4] at h
    split at h
    · simp only [Option.some.injEq, Prod.mk.injEq] at h
      obtain ⟨rfl, rfl⟩ := h; left; omega
    · simp only [Option.some.injEq, Prod.mk.injEq] at h
      obtain ⟨rfl, rfl⟩ := h; left; omega
  rw [if_neg c4] at h
  by_cases c5 : st.attrs.jpw_num.isSome = true
  · rw [if_pos c5] at h
    rcases xmlStepPending_progress _ _ _ _ _ _ h with h1 | ⟨h1, h2⟩
    · left; exact h1
    · right; exact ⟨h1, h2, c5⟩
  rw [if_neg c5] at h
  left
  exact xmlStepNoPending_progress _ _ _ _ _ _ h

theorem xmlLoop_total (cs : List Char) : ∀ (fuel i : ℕ) (st : XmlState),
    2 * (cs.length - i) + (if st.attrs.jpw_num.isSome then 1 else 0) < fuel →
    ∃ st', xmlLoop cs fuel i st = some st' := by
  intro fuel
  induction fuel with
  | zero => intro i st h; omega
  | succ n ih =>
    intro i st h
    unfold xmlLoop
    by_cases hlt : i < cs.length
    · rw [if_pos hlt]
      cases hstep : xmlStep cs i st with
      | none => exact ⟨st, rfl⟩
      | some p =>
        obtain ⟨i', st'⟩ := p
        have hp := xmlStep_progress cs i st hlt i' st' hstep
        have hb2 : (if st'.attrs.jpw_num.isSome then 1 else 0) ≤ 1 := by
          split <;> omega
        have hm : 2 * (cs.length - i') + (if st'.attrs.jpw_num.isSome then 1 else 0) < n := by
          rcases hp with h1 | ⟨rfl, h2, h3⟩
          · omega
          · simp only [h2, h3, Option.isSome_none, Bool.false_eq_true, if_false,
              if_true] at h ⊢
            omega
        obtain ⟨st2, h2⟩ := ih i' st' hm
        exact ⟨st2, h2⟩
    · rw [if_neg hlt]
      exact ⟨st, rfl⟩

theorem ly_finalize_clears (st : LyState) : (ly_finalize st).current_note = none := by
  unfold ly_finalize
  split
  · assumption
  · rfl

theorem lyStep_progress (cs : List Char) (i : ℕ) (st : LyState)
    (i' : ℕ) (st' : LyState) (h : lyStep cs i st = (i', st')) :
    i + 1 ≤ i' ∨
      (i' = i ∧ st'.current_note = none ∧ st.current_note.isSome = true) := by
  unfold lyStep at h
  simp only [] at h
  by_cases c1 : cs.getD i ' ' = '$' ∧ i + 1 < cs.length ∧ cs.getD (i + 1) ' ' = '('
  · rw [if_pos c1] at h
    simp only [Prod.mk.injEq] at h
    obtain ⟨rfl, rfl⟩ := h; left; omega
  rw [if_neg c1] at h
  by_cases c2 : st.in_dollar = true
  · rw [if_pos c2] at h
    simp only [Prod.mk.injEq] at h
    obtain ⟨rfl, rfl⟩ := h; left; omega
  rw [if_neg c2] at h
  by_cases c3 : cs.getD i ' ' = '{'
  · rw [if_pos c3] at h
    simp only [Prod.mk.injEq] at h
    obtain ⟨rfl, rfl⟩ := h; left; omega
  rw [if_neg c3] at h
  by_cases c4 : st.in_special = true
  · rw [if_pos c4] at h
    split at h <;>
      (simp only [Prod.mk.injEq] at h; obtain ⟨rfl, rfl⟩ := h; left; omega)
  rw [if_neg c4] at h
  by_cases c5 : cs.getD i ' ' = '('
  · rw [if_pos c5] at h
    simp only [Prod.mk.injEq] at h
    obtain ⟨rfl, rfl⟩ := h; left; omega
  rw [if_neg c5] at h
  by_cases c6 : cs.getD i ' ' = ')'
  · rw [if_pos c6] at h
    split at h <;>
      (simp only [Prod.mk.injEq] at h; obtain ⟨rfl, rfl⟩ := h; left; omega)
  rw [if_neg c6] at h
  by_cases c7 : cs.getD i ' ' ∈ ['|', ':', '[']
  · rw [if_pos c7] at h
    split at h <;>
      (simp only [Prod.mk.injEq] at h; obtain ⟨rfl, rfl⟩ := h; left; omega)
  rw [if_neg c7] at h
  by_cases c8 : isPyDigit (cs.getD i ' ') = true
  · rw [if_pos c8] at h
    split at h <;>
      (simp only [Prod.mk.injEq] at h; obtain ⟨rfl, rfl⟩ := h; left; omega)
  rw [if_neg c8] at h
  split at h
  next n hcn =>
    by_cases d1 : cs.getD i ' ' = octUp
    · rw [if_pos d1] at h
      simp only [Prod.mk.injEq] at h
      obtain ⟨rfl, rfl⟩ := h; left; omega
    rw [if_neg d1] at h
    by_cases d2 : cs.getD i ' ' = ','
    · rw [if_pos d2] at h
      simp only [Prod.mk.injEq] at h
      obtain ⟨rfl, rfl⟩ := h; left; omega
    rw [if_neg d2] at h
    by_cases d3 : cs.getD i ' ' = '_'
    · rw [if_pos d3] at h
      simp only [Prod.mk.injEq] at h
      obtain ⟨rfl, rfl⟩ := h; left; omega
    rw [if_neg d3] at h
    by_cases d4 : cs.getD i ' ' = '-'
    · rw [if_pos d4] at h
      simp only [Prod.mk.injEq] at h
      obtain ⟨rfl, rfl⟩ := h; left; omega
    rw [if_neg d4] at h
    by_cases d5 : cs.getD i ' ' = '.'
    · rw [if_pos d5] at h
      simp only [Prod.mk.injEq] at h
      obtain ⟨rfl, rfl⟩ := h; left; omega
    rw [if_neg d5] at h
    by_cases d6 : ¬ isPySpace (cs.getD i ' ') = true
    · rw [if_pos d6] at h
      simp only [Prod.mk.injEq] at h
      obtain ⟨rfl, rfl⟩ := h
      right
      refine ⟨rfl, ly_finalize_clears st, ?_⟩
      rw [hcn]; rfl
    · rw [if_neg d6] at h
      simp only [Prod.mk.injEq] at h
      obtain ⟨rfl, rfl⟩ := h; left; omega
  next hcn =>
    split at h <;>
      (simp only [Prod.mk.injEq] at h; obtain ⟨rfl, rfl⟩ := h; left; omega)

theorem lyLoop_total (cs : List Char) : ∀ (fuel i : ℕ) (st : LyState),
    2 * (cs.length - i) + (if st.current_note.isSome then 1 else 0) < fuel →
    ∃ st', lyLoop cs fuel i st = some st' := by
  intro fuel
  induction fuel with
  | zero => intro i st h; omega
  | succ n ih =>
    intro i st h
    unfold lyLoop
    by_cases hlt : i < cs.length
    · rw [if_pos hlt]
      have hp := lyStep_progress cs i st (lyStep cs i st).1 (lyStep cs i st).2 rfl
      have hb2 : (if (lyStep cs i st).2.current_note.isSome then 1 else 0) ≤ 1 := by
        split <;> omega
      have hm : 2 * (cs.length - (lyStep cs i st).1) +
          (if (lyStep cs i st).2.current_note.isSome then 1 else 0) < n := by
        rcases hp with h1 | ⟨h1, h2, h3⟩
        · omega
        · simp only [h1, h2, h3, Option.isSome_none, Bool.false_eq_true, if_false,
            if_true] at h hb2 ⊢
          omega
      exact ih (lyStep cs i st).1 (lyStep cs i st).2 hm
    · rw [if_neg hlt]
      exact ⟨st, rfl⟩

/-- One jpw2xml voice line is always parsed successfully with the fuel
supplied by `xmlParseLine`. -/
theorem xmlParseLine_total (st : XmlState) (line : String) :
    ∃ st', xmlParseLine st line = some st' := by
  have hb : (if st.attrs.jpw_num.isSome then 1 else 0) ≤ 1 := by split <;> omega
  obtain ⟨st', h⟩ := xmlLoop_total line.toList (2 * line.toList.length + 2) 0 st (by omega)
  exact ⟨_, by rw [xmlParseLine, h]; rfl⟩

/-- The whole jpw2xml voice parse always succeeds. -/
theorem xmlFold_total : ∀ (voice_lines : List String) (st : XmlState),
    ∃ st', voice_lines.foldlM xmlParseLine st = some st' := by
  intro voice_lines
  induction voice_lines with
  | nil => intro st; exact ⟨st, rfl⟩
  | cons l ls ih =>
    intro st
    obtain ⟨st1, h1⟩ := xmlParseLine_total st l
    obtain ⟨st2, h2⟩ := ih st1
    exact ⟨st2, by rw [List.foldlM, h1]; exact h2⟩

/-- One jpw2ly voice line is always parsed successfully with the fuel
supplied by `lyParseLine`. -/
theorem lyParseLine_total (st : LyState) (line : String) :
    ∃ st', lyParseLine st line = some st' := by
  have hb : (if st.current_note.isSome then 1 else 0) ≤ 1 := by split <;> omega
  obtain ⟨st', h⟩ := lyLoop_total line.toList (2 * line.toList.length + 2) 0 st (by omega)
  exact ⟨_, by rw [lyParseLine, h]; rfl⟩

/-- The whole jpw2ly voice parse always succeeds. -/
theorem lyFold_total : ∀ (voice_lines : List String) (st : LyState),
    ∃ st', voice_lines.foldlM lyParseLine st = some st' := by
  intro voice_lines
  induction voice_lines with
  | nil => intro st; exact ⟨st, rfl⟩
  | cons l ls ih =>
    intro st
    obtain ⟨st1, h1⟩ := lyParseLine_total st l
    obtain ⟨st2, h2⟩ := ih st1
    exact ⟨st2, by rw [List.foldlM, h1]; exact h2⟩
/-- A whitespace character is always skipped outright by the jpw2xml loop:
the state, pending note included, is untouched. -/
theorem xmlStep_space (cs : List Char) (i : ℕ) (st : XmlState)
    (hsp : isPySpace (cs.getD i ' ') = true) :
    xmlStep cs i st = some (i + 1, st) := by
  have hc := of_decide_eq_true hsp
  simp only [List.mem_cons, List.not_mem_nil, or_false] at hc
  simp only [xmlStep]
  rcases hc with hc | hc | hc | hc | hc | hc <;> rw [hc] <;>
    simp [isPySpace, isPyDigit]

theorem lyStep_space_with_pending (cs : List Char) (i : ℕ) (st : LyState) (n : LyNote)
    (hdollar : st.in_dollar = false) (hspecial : st.in_special = false)
    (hnote : st.current_note = some n)
    (hsp : isPySpace (cs.getD i ' ') = true) :
    lyStep cs i st = (i + 1, st) := by
  have hc := of_decide_eq_true hsp
  simp only [List.mem_cons, List.not_mem_nil, or_false] at hc
  simp only [lyStep]
  rcases hc with hc | hc | hc | hc | hc | hc <;> rw [hc, hnote] <;>
    simp [hdollar, hspecial, isPySpace, isPyDigit, octUp]

theorem lyStep_bar_in_slur (cs : List Char) (i : ℕ) (st : LyState)
    (hdollar : st.in_dollar = false) (hspecial : st.in_special = false)
    (hslur : st.is_inside_slur = true)
    (hbar : cs.getD i ' ' ∈ ['|', ':', '[']) :
    lyStep cs i st = (i + 1, st) := by
  have hc : cs.getD i ' ' = '|' ∨ cs.getD i ' ' = ':' ∨ cs.getD i ' ' = '[' := by
    simpa using hbar
  simp only [lyStep]
  rcases hc with hc | hc | hc <;> rw [hc] <;>
    simp [hdollar, hspecial, hslur, isPySpace, isPyDigit]

theorem xmlStep_accidental_no_pending (cs : List Char) (i : ℕ) (st : XmlState)
    (hnone : st.attrs.jpw_num = none)
    (hacc : cs.getD i ' ' = '#' ∨ cs.getD i ' ' = 'b') :
    xmlStep cs i st = some (i + 1, st) := by
  simp only [xmlStep, xmlStepNoPending]
  rcases hacc with hc | hc <;> rw [hc] <;>
    simp [hnone, isPySpace, isPyDigit]

/-! ## Claim C6 -/

section RatEvalC6

attribute [local semireducible] Rat.add Rat.sub Rat.mul Rat.inv Rat.ofScientific

/-- C6: for every input voice text, both character-scanning parse loops
terminate and return an event sequence (the fuel supplied to the loop is
always sufficient, which is exactly termination of the Python `while` loop
with its one-character pushback), and an unrecognized non-whitespace
character such as a stray `?` is skipped one character at a time: parsing
`"1 ? 2"` still yields the notes before and after the unknown character in
both parsers.  Neither parser can raise: every branch of the embedded step
functions is total. -/
theorem scan_loop_terminates_and_skips_unknown :
    (∀ voice_lines : List String,
      ∃ events, parse_jpw_voice_section voice_lines = some events) ∧
    (∀ voice_lines : List String,
      ∃ items, parse_voice_char_by_char voice_lines = some items) ∧
    parse_jpw_voice_section ["1 ? 2"] =
      some [XmlEvent.note '1' 0 "" false false 1,
            XmlEvent.note '2' 0 "" false false 1] ∧
    parse_voice_char_by_char ["1 ? 2"] =
      some [LyItem.note ⟨'c', 0, "4", false, false, false, false, false⟩,
            LyItem.note ⟨'d', 0, "4", false, false, false, false, false⟩] := by
  refine ⟨?_, ?_, by decide, by decide⟩
  · intro voice_lines
    obtain ⟨st, h⟩ := xmlFold_total voice_lines initXmlState
    exact ⟨st.events, by rw [parse_jpw_voice_section, h]; rfl⟩
  · intro voice_lines
    obtain ⟨st, h⟩ := lyFold_total voice_lines initLyState
    exact ⟨st.notes, by rw [parse_voice_char_by_char, h]; rfl⟩

end RatEvalC6

/-! ## Claim C3 -/

section RatEvalC3

attribute [local semireducible] Rat.add Rat.sub Rat.mul Rat.inv Rat.ofScientific

/-- C3 counterexample: in the jpw2ly parser (`parse_voice_char_by_char`,
one of the two implementations the claim describes) the input `(1 2 3)`
yields three notes whose slur-start flags are `[true, true, true]` — the
second event does have a slur flag set, contradicting the claim.  The
parser never clears its in-slur flag when a note begins, so every note up
to the closing `)` is marked `slur_start`. -/
theorem slur_triple_second_note_counterexample :
    (parse_voice_char_by_char ["(1 2 3)"]).map
      (fun items => items.map
        (fun it => match it with
          | LyItem.note n => n.slur_start
          | LyItem.bar _ => false)) = some [true, true, true] := by
  decide

/-- C3 amended: parsing `(1 2 3)` with the jpw2xml parser yields exactly
three Note events with `slur_start` on the first, `slur_end` on the third,
and neither flag on the second — as the claim states; the jpw2ly parser
instead yields three notes that all carry `slur_start`, the third also
carrying `slur_end`. -/
theorem slur_triple_amended :
    parse_jpw_voice_section ["(1 2 3)"] =
      some [XmlEvent.note '1' 0 "" true false 1,
            XmlEvent.note '2' 0 "" false false 1,
            XmlEvent.note '3' 0 "" false true 1] ∧
    parse_voice_char_by_char ["(1 2 3)"] =
      some [LyItem.note ⟨'c', 0, "4", false, true, false, false, false⟩,
            LyItem.note ⟨'d', 0, "4", false, true, false, false, false⟩,
            LyItem.note ⟨'e', 0, "4", false, true, true, false, false⟩] := by
  exact ⟨by decide, by decide⟩

end RatEvalC3

/-! ## Claim C4 -/

section RatEvalC4

attribute [local semireducible] Rat.add Rat.sub Rat.mul Rat.inv Rat.ofScientific

/-- C4 counterexample: in the jpw2xml parser the input `1 -` yields a
single note of 2 beats: the whitespace after the `1` did not finalize the
pending note, and the extension modifier `-` after the whitespace attached
to it (`h_count = 1`, so `beats = 1 + 1 = 2`), contradicting the claim that
whitespace immediately finalizes a pending note so that later modifiers
never attach to it. -/
theorem whitespace_finalizes_counterexample :
    parse_jpw_voice_section ["1 -"] =
      some [XmlEvent.note '1' 0 "" false false 2] := by
  decide

/-- C4 amended: whitespace never finalizes a pending note.  In the jpw2xml
loop a whitespace character is skipped outright with the whole state
untouched; in the jpw2ly loop a whitespace character met while a note is
pending also leaves the state untouched (its finalize-on-whitespace branch
is reachable only when no note is pending, where it is a no-op).
Consequently a modifier after the whitespace still attaches to the note
begun before it, as the jpw2ly parse of `1 -` (one note, duration `"2"`,
two beats) shows. -/
theorem whitespace_no_finalize_amended :
    (∀ (cs : List Char) (i : ℕ) (st : XmlState),
      isPySpace (cs.getD i ' ') = true → xmlStep cs i st = some (i + 1, st)) ∧
    (∀ (cs : List Char) (i : ℕ) (st : LyState) (n : LyNote),
      st.in_dollar = false → st.in_special = false → st.current_note = some n →
      isPySpace (cs.getD i ' ') = true → lyStep cs i st = (i + 1, st)) ∧
    parse_voice_char_by_char ["1 -"] =
      some [LyItem.note ⟨'c', 0, "2", false, false, false, false, false⟩] := by
  exact ⟨xmlStep_space, lyStep_space_with_pending, by decide⟩

/-- C4 witness: the amended behaviour at concrete inputs — the space at
index 1 of `"1 -"` is skipped by both parsers with a pending note. -/
theorem whitespace_no_finalize_amended_witness :
    xmlStep "1 -".toList 1
      ⟨⟨some '1', 0, "", 0, 0, false, false, false⟩, false, []⟩ =
      some (2, ⟨⟨some '1', 0, "", 0, 0, false, false, false⟩, false, []⟩) ∧
    lyStep "1 -".toList 1
      ⟨some ⟨'c', 0, "4", false, false, false, false, false⟩, 0, 0, 0, false,
        false, "", false, false, false, 0, []⟩ =
      (2, ⟨some ⟨'c', 0, "4", false, false, false, false, false⟩, 0, 0, 0, false,
        false, "", false, false, false, 0, []⟩) := by
  constructor
  · exact whitespace_no_finalize_amended.1 "1 -".toList 1 _ (by decide)
  · exact whitespace_no_finalize_amended.2.1 "1 -".toList 1 _
      ⟨'c', 0, "4", false, false, false, false, false⟩ rfl rfl rfl (by decide)

end RatEvalC4

/-! ## Claim C7 -/

section RatEvalC7

attribute [local semireducible] Rat.add Rat.sub Rat.mul Rat.inv Rat.ofScientific

/-- C7 counterexample: in the jpw2xml parser the input `1?)` appends the
note for `1` (finalized by the unknown character `?`, with `slur_end`
still false) and then, while no slur was ever opened, the unmatched `)`
mutates that already-appended event, setting its `slur_end` flag.  This
contradicts both halves of the claim: an appended event is modified by the
processing of a later character, and the modifying character is an
unmatched slur close. -/
theorem event_mutation_counterexample :
    parse_jpw_voice_section ["1?)"] =
      some [XmlEvent.note '1' 0 "" false true 1] := by
  decide

/-- C7 amended: the jpw2ly parser does drop a `)` with no open slur without
touching any appended event (`1?)` parses to the unmodified note), but
appended events are not immutable in general: when a slur close is
processed with no pending note, both parsers set `slur_end` on the most
recently appended note after it was appended — jpw2ly for a matched close
(`1()`), jpw2xml for any close at all (`1()` as well as the unmatched
close of the counterexample). -/
theorem event_mutation_amended :
    parse_voice_char_by_char ["1?)"] =
      some [LyItem.note ⟨'c', 0, "4", false, false, false, false, false⟩] ∧
    parse_voice_char_by_char ["1()"] =
      some [LyItem.note ⟨'c', 0, "4", false, false, true, false, false⟩] ∧
    parse_jpw_voice_section ["1()"] =
      some [XmlEvent.note '1' 0 "" false true 1] := by
  exact ⟨by decide, by decide, by decide⟩

end RatEvalC7

/-! ## Claim C8 -/

section RatEvalC8

attribute [local semireducible] Rat.add Rat.sub Rat.mul Rat.inv Rat.ofScientific

/-- C8 counterexample: in the jpw2xml parser (one of the two
implementations the claim describes) the barline character `|` consumed
between `(` and its matching `)` in `(1|2)` does produce a Barline event:
that parser never consults its slur flag in the barline branches, so the
claim that no Barline event is ever emitted from a barline-lead character
consumed in the in-slur state fails on it. -/
theorem barline_in_slur_counterexample :
    parse_jpw_voice_section ["(1|2)"] =
      some [XmlEvent.note '1' 0 "" true false 1,
            XmlEvent.barline "|",
            XmlEvent.note '2' 0 "" false true 1] := by
  decide

/-- C8 amended: the jpw2ly parser ignores barline-lead characters (`|`,
`:`, `[`) while its in-slur flag is set — the step leaves the state
untouched and emits nothing, and `(1|2)` parses to two notes with no bar
item; the jpw2xml parser instead emits a Barline event for such
characters. -/
theorem barline_in_slur_amended :
    (∀ (cs : List Char) (i : ℕ) (st : LyState),
      st.in_dollar = false → st.in_special = false → st.is_inside_slur = true →
      cs.getD i ' ' ∈ ['|', ':', '['] → lyStep cs i st = (i + 1, st)) ∧
    parse_voice_char_by_char ["(1|2)"] =
      some [LyItem.note ⟨'c', 0, "4", false, true, false, false, false⟩,
            LyItem.note ⟨'d', 0, "4", false, true, true, false, false⟩] := by
  exact ⟨lyStep_bar_in_slur, by decide⟩

/-- C8 witness: the amended in-slur barline behaviour at a concrete input —
the `|` at index 2 of `"(1|2)"` is skipped by the jpw2ly step when the
in-slur flag is set. -/
theorem barline_in_slur_amended_witness :
    lyStep "(1|2)".toList 2
      ⟨some ⟨'c', 0, "4", false, true, false, false, false⟩, 0, 0, 0, false,
        false, "", false, true, false, 0, []⟩ =
      (3, ⟨some ⟨'c', 0, "4", false, true, false, false, false⟩, 0, 0, 0, false,
        false, "", false, true, false, 0, []⟩) :=
  barline_in_slur_amended.1 "(1|2)".toList 2 _ rfl rfl rfl (by decide)

end RatEvalC8

/-! ## Claim C10 -/

section RatEvalC10

attribute [local semireducible] Rat.add Rat.sub Rat.mul Rat.inv Rat.ofScientific

/-- C10: in the jpw2xml voice parser an accidental character `#` or `b` is
applied as the accidental of the most recently begun, still-pending note
even across whitespace (`1 #` yields the note `1` with accidental `#`),
while a `#` or `b` met with no pending note leaves the state entirely
unchanged — so `#1`, the order the MIDI-to-JPW converter emits, parses to
the note `1` with no accidental. -/
theorem accidental_pending_attachment :
    (∀ (cs : List Char) (i : ℕ) (st : XmlState),
      st.attrs.jpw_num = none →
      (cs.getD i ' ' = '#' ∨ cs.getD i ' ' = 'b') →
      xmlStep cs i st = some (i + 1, st)) ∧
    parse_jpw_voice_section ["1 #"] =
      some [XmlEvent.note '1' 0 "#" false false 1] ∧
    parse_jpw_voice_section ["#1"] =
      some [XmlEvent.note '1' 0 "" false false 1] := by
  exact ⟨xmlStep_accidental_no_pending, by decide, by decide⟩

/-- C10 witness: the no-pending accidental behaviour at a concrete input —
the `#` at index 0 of `"#1"` is consumed with no effect on the initial
state. -/
theorem accidental_pending_attachment_witness :
    xmlStep "#1".toList 0 initXmlState = some (1, initXmlState) :=
  accidental_pending_attachment.1 "#1".toList 0 initXmlState rfl (by decide)

end RatEvalC10

/-! ## Claim C9 -/

/-- C9: when a tuplet group's ratio digit is missing or is not a digit (in
Python terms, when `ratio_digit_str and ratio_digit_str.isdigit()` is
falsy), the tuplet ratio defaults to 3 actual notes against 2 normal
notes; and every member note or rest created by the tuplet member loop is
annotated with the same time-modification ratio (actual-notes over
normal-notes) that was computed for the group. -/
theorem tuplet_default_ratio_and_uniform_marking :
    (∀ ratio_digit_str : Option String,
      (∀ s, ratio_digit_str = some s → pyTruthyDigits s = false) →
      tuplet_ratio ratio_digit_str = (3, 2)) ∧
    (∀ (actual_notes normal_notes total : ℕ) (ms : List InnerMatch) (idx : ℕ),
      ∀ m ∈ buildTupletMembers actual_notes normal_notes total ms idx,
        m.timeMod = (actual_notes, normal_notes)) := by
  constructor
  · intro o ho
    cases o with
    | none => rfl
    | some s => simp [tuplet_ratio, ho s rfl]
  · intro actual_notes normal_notes total ms
    induction ms with
    | nil =>
      intro idx m hm
      simp [buildTupletMembers] at hm
    | cons x xs ih =>
      intro idx m hm
      rw [buildTupletMembers.eq_def] at hm
      simp only [] at hm
      split at hm
      · split at hm
        · rcases List.mem_cons.mp hm with rfl | hm2
          · rfl
          · exact ih (idx + 1) m hm2
        · exact ih (idx + 1) m hm
      · rcases List.mem_cons.mp hm with rfl | hm2
        · rfl
        · exact ih (idx + 1) m hm2
      · exact ih (idx + 1) m hm

section RatEvalC9

attribute [local semireducible] Rat.add Rat.sub Rat.mul Rat.inv Rat.ofScientific

/-- C9 witness: the defaulting and the uniform annotation at concrete
inputs — the garbled ratio string `"x2"` defaults to 3:2, and a concrete
two-member tuplet content produces a member carrying exactly that
time-modification. -/
theorem tuplet_default_ratio_and_uniform_marking_witness :
    tuplet_ratio (some "x2") = (3, 2) ∧
    (TupMember.rest 4 "quarter" 0 3 2 "start" "yes").timeMod = (3, 2) := by
  refine ⟨tuplet_default_ratio_and_uniform_marking.1 (some "x2") ?_, ?_⟩
  · intro s hs
    cases hs
    decide
  · exact tuplet_default_ratio_and_uniform_marking.2 3 2 2
      [InnerMatch.rest (some "") (some ""), InnerMatch.note "" "1" "" (some "") (some "")] 0
      (TupMember.rest 4 "quarter" 0 3 2 "start" "yes") (by decide)

end RatEvalC9
